import Mathlib

/-!
Verification of the FreeSWITCH ESL log collector (src/logger.py) against its
natural-language specification.

The development shallowly embeds the routing engine of the collector:

- the string helpers correspond to the Python primitives used by the code
  (str.strip, str.lower, str.split, re.sub with the illegal-filename-character
  class, substring containment).  Python's Unicode-aware classification
  functions (str.isalnum, str.lower and friends) are modelled with their ASCII
  behaviour, which coincides with Python on every ASCII string; all concrete
  inputs used below are ASCII.
- LogManager._is_valid_domain, LogManager.extract_domain and the regular
  expressions it applies to the raw log line are embedded as executable
  functions; the try/except blocks of the Python code around attribute access
  are modelled by headers returning an Except value (error = the access threw).
- LogManager._write_to_file, _rotate_log, _close_oldest_file, write_log,
  flush_buffers and close_all become a state machine over SinkState; the
  filesystem is modelled by the sizes of the live per-domain files, the rename
  performed by rotation, and a trace of the successful appends.  The outcome
  of the fallible I/O calls (the write raising, the rotation rename failing)
  is an explicit input of each step.
- FreeSwitchLogCollector.process_event (deduplication, log-line construction,
  the classified write plus the fs_cli copy) and the reconnect logic of
  FreeSwitchLogCollector.run/connect are embedded as pure step functions.
-/
/-! ### Python character and string primitives -/
/-- Whitespace characters stripped by Python's str.strip and matched by the
regex class backslash-s (ASCII part). -/
def pyIsSpace (c : Char) : Bool :=
  c = ' ' || c = '\t' || c = '\n' || c = '\x0d' || c = '\x0b' || c = '\x0c'

/-- Characters allowed in a domain label by LogManager._is_valid_domain:
Python's c.isalnum() or c in '-_' (ASCII behaviour of isalnum). -/
def isHostChar (c : Char) : Bool :=
  c.isAlphanum || c = '-' || c = '_'

/-- The characters removed by the sanitizing regex [<>:"/backslash|?*] in
logger.py (the class also contains backslash-s, handled separately). -/
def illegalFileChars : List Char :=
  ['<', '>', ':', '"', '/', '\\', '|', '?', '*']

/-- A character removed by re.sub applied with the illegal-filename class. -/
def isIllegalChar (c : Char) : Bool :=
  illegalFileChars.contains c || pyIsSpace c

/-- Python str.strip on a character list: drop whitespace from both ends. -/
def stripL (l : List Char) : List Char :=
  ((l.dropWhile pyIsSpace).reverse.dropWhile pyIsSpace).reverse

/-- Python str.strip. -/
def pyStrip (s : String) : String :=
  String.mk (stripL s.data)

/-- Python str.lower (ASCII behaviour). -/
def pyLower (s : String) : String :=
  String.mk (s.data.map Char.toLower)

/-- Python str.upper (ASCII behaviour). -/
def pyUpper (s : String) : String :=
  String.mk (s.data.map Char.toUpper)

/-- Python re.sub with the illegal-filename-character class replacing by the
empty string: remove every illegal character anywhere in the string. -/
def removeIllegal (s : String) : String :=
  String.mk (s.data.filter (fun c => !(isIllegalChar c)))

/-- Python str.rstrip applied with a newline argument: drop trailing
newline characters. -/
def rstripNewlines (s : String) : String :=
  String.mk ((s.data.reverse.dropWhile (fun c => c = '\n')).reverse)

/-- Python str.split with a single-character separator (no maxsplit). -/
def splitOnChar (sep : Char) : List Char → List (List Char)
  | [] => [[]]
  | c :: cs =>
    let r := splitOnChar sep cs
    if c = sep then [] :: r
    else
      match r with
      | [] => [[c]]
      | g :: gs => (c :: g) :: gs

/-- Python len(s.encode('utf-8')), the byte length used by the rotation
check in LogManager._write_to_file. -/
def byteLen (s : String) : Nat :=
  s.utf8ByteSize

/-- Python membership test of a character in a string. -/
def pyContainsChar (s : String) (c : Char) : Bool :=
  s.data.contains c

/-- Python substring containment (the in operator on strings). -/
def pyContainsStr (hay sub : String) : Bool :=
  decide (sub.data <:+: hay.data)

/-- Python s.split(c, 1)[1]: everything after the first occurrence of c.
Only used by the code after checking that c occurs in s. -/
def afterFirstChar (s : String) (c : Char) : String :=
  String.mk ((s.data.dropWhile (fun a => a != c)).drop 1)

/-- Python truthiness of an optional string (None and the empty string are
falsy). -/
def truthy : Option String → Bool
  | none => false
  | some s => !(s == "")

/-- Python's a or b over optional strings. -/
def pyOr (a b : Option String) : Option String :=
  if truthy a then a else b

/-- Python's s or 'unknown' applied by the sanitizing return points of
logger.py. -/
def orUnknown (s : String) : String :=
  if s = "" then "unknown" else s

/-! ### LogManager._is_valid_domain (logger.py lines 259-277) -/

/-- Core of the validator, applied after the code's
domain.strip().lower() normalization (logger.py lines 263-277). -/
def validDomainCore (d : List Char) : Bool :=
  if d = "localhost".data then true
  else if 253 < d.length then false
  else
    let labels := splitOnChar '.' d
    if labels.length = 1 then d.all isHostChar
    else labels.all (fun l => !l.isEmpty && decide (l.length ≤ 63) && l.all isHostChar)

/-- LogManager._is_valid_domain: reject the falsy (empty) string, then
normalize with strip().lower() and validate. -/
def is_valid_domain (domain : String) : Bool :=
  if domain = "" then false
  else validDomainCore (pyLower (pyStrip domain)).data

/-- The domain validation rule exactly as claim C3 words it: the candidate
itself equals localhost, or is a non-empty single token of
alphanumeric, dash, underscore characters, or is a dot-separated sequence of labels each
1-63 characters of alphanumeric, dash, underscore with total length at most 253. -/
def specValidDomain (s : String) : Prop :=
  s = "localhost" ∨
  (s ≠ "" ∧ ∀ c ∈ s.data, isHostChar c = true) ∨
  (s.data.length ≤ 253 ∧ 2 ≤ (splitOnChar '.' s.data).length ∧
   ∀ l ∈ splitOnChar '.' s.data, l ≠ [] ∧ l.length ≤ 63 ∧ ∀ c ∈ l, isHostChar c = true)

/-- The validation rule the code actually implements, stated on the
whitespace-stripped, lowercased form of the candidate. -/
def amendedValidDomain (s : String) : Prop :=
  s ≠ "" ∧
  (pyLower (pyStrip s) = "localhost" ∨
   ((pyLower (pyStrip s)).data.length ≤ 253 ∧ '.' ∉ (pyLower (pyStrip s)).data ∧
    ∀ c ∈ (pyLower (pyStrip s)).data, isHostChar c = true) ∨
   ((pyLower (pyStrip s)).data.length ≤ 253 ∧
    2 ≤ (splitOnChar '.' (pyLower (pyStrip s)).data).length ∧
    ∀ l ∈ splitOnChar '.' (pyLower (pyStrip s)).data,
      l ≠ [] ∧ l.length ≤ 63 ∧ ∀ c ∈ l, isHostChar c = true))

/-! ### The regular expressions applied by extract_domain

Each re.search call of logger.py is embedded as a searcher that tries the
pattern at every start position from the left (re.search semantics) and
returns the first capture group of the leftmost match.  Because none of the
character classes of these patterns contains the literal characters that
follow them, greedy runs never need to backtrack, except for the optional
user-part group of the sofia pattern, which is resolved by an explicit
second alternative exactly as the regex engine would. -/

/-- The regex class backslash-w (ASCII behaviour). -/
def isWordChar (c : Char) : Bool :=
  c.isAlphanum || c = '_'

/-- The capture class of the domain patterns: word characters, dot, dash. -/
def isCapChar (c : Char) : Bool :=
  isWordChar c || c = '.' || c = '-'

/-- The class of the sip user part in _extract_sip_domain: word characters,
dot, plus, dash. -/
def isSipUserChar (c : Char) : Bool :=
  isWordChar c || c = '.' || c = '+' || c = '-'

/-- The sofia profile class: word characters and dash. -/
def isSofiaProfileChar (c : Char) : Bool :=
  isWordChar c || c = '-'

/-- The sofia user class: word characters, percent, plus, dash. -/
def isSofiaUserChar (c : Char) : Bool :=
  isWordChar c || c = '%' || c = '+' || c = '-'

/-- The regex class of lowercase and uppercase letters. -/
def pyIsAlpha (c : Char) : Bool :=
  c.isAlpha

/-- Try the _extract_sip_domain pattern (sip: then the user class starred,
then the at sign, then a non-empty capture of the domain class) at one
position. -/
def matchSipAt (l : List Char) : Option (List Char) :=
  if "sip:".data.isPrefixOf l then
    let rest := l.drop 4
    match rest.dropWhile isSipUserChar with
    | '@' :: rest2 =>
      let cap := rest2.takeWhile isCapChar
      if cap.isEmpty then none else some cap
    | _ => none
  else none

/-- Try the first log-line pattern (sip: then at least one character that is
neither the at sign nor a closing angle bracket, then the at sign, then a
non-empty capture of the domain class) at one position. -/
def matchLogSipAt (l : List Char) : Option (List Char) :=
  if "sip:".data.isPrefixOf l then
    let rest := l.drop 4
    let run := rest.takeWhile (fun c => !(c = '@' || c = '>'))
    if run.isEmpty then none
    else
      match rest.dropWhile (fun c => !(c = '@' || c = '>')) with
      | '@' :: rest2 =>
        let cap := rest2.takeWhile isCapChar
        if cap.isEmpty then none else some cap
      | _ => none
  else none

/-- Try the sofia channel pattern at one position: sofia/ then a non-empty
profile run, a slash, an optional user-part-then-at-sign group, and a
non-empty capture of the domain class.  When the optional group matches but
the capture after it is empty the regex engine backtracks and drops the
group, which is the second alternative below. -/
def matchSofiaAt (l : List Char) : Option (List Char) :=
  if "sofia/".data.isPrefixOf l then
    let rest := l.drop 6
    let run1 := rest.takeWhile isSofiaProfileChar
    if run1.isEmpty then none
    else
      match rest.dropWhile isSofiaProfileChar with
      | '/' :: rest2 =>
        let run2 := rest2.takeWhile isSofiaUserChar
        let tryGroup :=
          if run2.isEmpty then none
          else
            match rest2.dropWhile isSofiaUserChar with
            | '@' :: rest4 =>
              let cap := rest4.takeWhile isCapChar
              if cap.isEmpty then none else some cap
            | _ => none
        match tryGroup with
        | some cap => some cap
        | none =>
          let cap := rest2.takeWhile isCapChar
          if cap.isEmpty then none else some cap
      | _ => none
  else none

/-- Try the bare at-sign pattern (the at sign then a non-empty capture of
the domain class) at one position. -/
def matchAtSign (l : List Char) : Option (List Char) :=
  match l with
  | '@' :: rest =>
    let cap := rest.takeWhile isCapChar
    if cap.isEmpty then none else some cap
  | _ => none

/-- Try the bracketed-hostname pattern at one position: an opening square
bracket, a capture of domain-class characters that decomposes as a
non-empty prefix, a dot, and a final all-letter label of length at least
two, then a closing square bracket.  Because the letter label may not
contain a dot, the decomposition dot is necessarily the last dot of the
capture. -/
def matchBracketAt (l : List Char) : Option (List Char) :=
  match l with
  | '[' :: rest =>
    let run := rest.takeWhile isCapChar
    match rest.dropWhile isCapChar with
    | ']' :: _ =>
      let revRun := run.reverse
      let lastLabelRev := revRun.takeWhile (fun c => !(c = '.'))
      match revRun.dropWhile (fun c => !(c = '.')) with
      | '.' :: preRev =>
        if preRev.isEmpty then none
        else if decide (2 ≤ lastLabelRev.length) && lastLabelRev.all pyIsAlpha then some run
        else none
      | _ => none
    | _ => none
  | _ => none

/-- re.search: try the matcher at every start position from the left and
return the first success. -/
def searchAux (m : List Char → Option (List Char)) : List Char → Option (List Char)
  | [] => m []
  | c :: cs =>
    match m (c :: cs) with
    | some r => some r
    | none => searchAux m cs

/-- LogManager._extract_sip_domain (logger.py 249-257). -/
def extract_sip_domain (s : String) : Option String :=
  (searchAux matchSipAt s.data).map String.mk

/-! ### LogManager.extract_domain (logger.py 148-247) -/

/-- An ESL event as the engine sees it: a header access either throws (the
error case, standing for the Python exception) or yields the header value
or None; the same for getBody. -/
structure Event where
  header : String → Except Unit (Option String)
  body : Except Unit (Option String)

/-- Header access under a try/except that maps a throwing access to None,
as every access in extract_domain is wrapped. -/
def getHeaderOr (ev : Event) (name : String) : Option String :=
  match ev.header name with
  | Except.error _ => none
  | Except.ok v => v

/-- The ordered header-candidate list of extract_domain (logger.py
159-163); the duplicate of variable_domain is kept as in the source. -/
def headerCandidates : List String :=
  ["domain_name", "Caller-Domain", "Callee-Domain", "User-Domain", "Domain",
   "variable_domain_name", "variable_domain", "variable_user_domain",
   "variable_sip_from", "variable_sip_to", "variable_domain"]

/-- The sip-uri branch of the header-candidate loop body (logger.py
176-184): when the stripped value contains a sip marker or an at sign,
extract the domain after the at sign and return it when valid; none means
the branch declines and the loop body falls through to the plain check. -/
def sipBranchKey (v : String) : Option String :=
  if pyContainsStr v "sip:" || pyContainsChar v '@' then
    match pyOr (extract_sip_domain v)
        (if pyContainsChar v '@' then some (pyStrip (afterFirstChar v '@')) else none) with
    | some sd =>
      if truthy (some sd) && is_valid_domain sd then
        some (orUnknown (removeIllegal (pyStrip (pyLower sd))))
      else none
    | none => none
  else none

/-- Body of the header-candidate loop of extract_domain (logger.py 165-191)
on the already-stripped value v: reject empty and the literal default, try
the sip-uri branch, then the plain-domain check; none means the loop
continues with the next candidate. -/
def candidateKeyCore (v : String) : Option String :=
  if v = "" then none
  else if pyLower v = "default" then none
  else
    match sipBranchKey v with
    | some k => some k
    | none =>
      if is_valid_domain v then some (orUnknown (removeIllegal (pyStrip (pyLower v))))
      else none

/-- The loop body applied to the raw candidate value: the code first strips
it (v = val.strip()). -/
def candidateKey (val : String) : Option String :=
  candidateKeyCore (pyStrip val)

/-- The header-candidate loop itself. -/
def firstHeaderKey (ev : Event) : List String → Option String
  | [] => none
  | h :: rest =>
    match getHeaderOr ev h with
    | none => firstHeaderKey ev rest
    | some val =>
      if val = "" then firstHeaderKey ev rest
      else
        match candidateKey val with
        | some k => some k
        | none => firstHeaderKey ev rest

/-- Validation and sanitization of the part after the at sign of the
Caller-ID-Number value (logger.py 199-204). -/
def callerIdDomainKey (domain : String) : Option String :=
  if is_valid_domain domain then some (orUnknown (removeIllegal (pyLower domain)))
  else none

/-- The Caller-ID-Number fallback of extract_domain (logger.py 193-204). -/
def callerIdKey (ev : Event) : Option String :=
  match getHeaderOr ev "Caller-ID-Number" with
  | none => none
  | some cid =>
    if cid = "" then none
    else if pyContainsChar cid '@' then
      callerIdDomainKey (pyStrip (afterFirstChar cid '@'))
    else none

/-- Body of the From/To/Channel-Name loop (logger.py 207-219) for one
header value. -/
def sipHostKey (h : String) : Option String :=
  match pyOr (extract_sip_domain h)
      (if pyContainsChar h '@' then some (pyStrip (afterFirstChar h '@')) else none) with
  | some dm =>
    if truthy (some dm) && is_valid_domain dm then
      some (orUnknown (removeIllegal (pyLower dm)))
    else none
  | none => none

/-- The From/To/Channel-Name loop itself. -/
def fromToChannelKey (ev : Event) : List String → Option String
  | [] => none
  | hdr :: rest =>
    match getHeaderOr ev hdr with
    | none => fromToChannelKey ev rest
    | some h =>
      if h = "" then fromToChannelKey ev rest
      else
        match sipHostKey h with
        | some k => some k
        | none => fromToChannelKey ev rest

/-- Validation and sanitization of one regex capture (logger.py 233-238):
an invalid capture makes the loop continue with the next pattern. -/
def capKey (cap : List Char) : Option String :=
  if String.mk cap = "" then none
  else if is_valid_domain (String.mk cap) then
    some (orUnknown (removeIllegal (pyLower (String.mk cap))))
  else none

/-- The pattern loop over the search results, in pattern order. -/
def firstSomeKey : List (Option (List Char)) → Option String
  | [] => none
  | t :: rest =>
    match t with
    | none => firstSomeKey rest
    | some cap =>
      match capKey cap with
      | some k => some k
      | none => firstSomeKey rest

/-- The final regex fallback of extract_domain (logger.py 221-240): the
four patterns applied to the raw log line, skipped if the line is empty. -/
def regexChainKey (line : String) : Option String :=
  if line = "" then none
  else
    firstSomeKey
      [searchAux matchLogSipAt line.data, searchAux matchSofiaAt line.data,
       searchAux matchAtSign line.data, searchAux matchBracketAt line.data]

/-- LogManager.extract_domain: the full ordered fallback chain.  The
function is total; every Python exception path is embedded as the
corresponding absent value, and the final catch-all except returns the
unknown sentinel just as the chain does. -/
def extract_domain (ev : Event) (log_line : String) : String :=
  match firstHeaderKey ev headerCandidates with
  | some k => k
  | none =>
    match callerIdKey ev with
    | some k => k
    | none =>
      match fromToChannelKey ev ["From", "To", "Channel-Name"] with
      | some k => k
      | none =>
        match regexChainKey log_line with
        | some k => k
        | none => "unknown"

/-- The domain normalization shared by write_log and _write_to_file
(logger.py 283-288 and 320-325): falsy becomes unknown, otherwise lowercase
then strip, then remove illegal filename characters, then fall back to
unknown if nothing is left. -/
def sanitizeDomain (d : String) : String :=
  let d1 := if d = "" then "unknown" else pyStrip (pyLower d)
  orUnknown (removeIllegal d1)

/-- Uppercase ASCII letter test, used to state that the classifier output is
lower-case. -/
def isUpperAZ (c : Char) : Bool :=
  decide (65 ≤ c.toNat) && decide (c.toNat ≤ 90)

/-! ### Every key the classifier returns is sanitized -/

/-- The invariant claimed for every partition key the classifier returns:
non-empty, free of illegal filename characters, and lower-case (no
uppercase ASCII letter). -/
def goodKey (k : String) : Prop :=
  k ≠ "" ∧ (∀ c ∈ k.data, isIllegalChar c = false) ∧ ∀ c ∈ k.data, isUpperAZ c = false

/-- An event exposing exactly one header (every other access yields None),
used by concrete witnesses. -/
def evHeaderOnly (name val : String) : Event :=
  ⟨fun n => if n = name then Except.ok (some val) else Except.ok none, Except.ok none⟩

/-- An event on which every attribute access throws. -/
def evAllFail : Event :=
  ⟨fun _ => Except.error (), Except.error ()⟩

/-! ### The partitioned log sink: LogManager state (logger.py 122-435)

The sink state carries the fields of LogManager that the write path reads
and writes, plus a model of the filesystem: liveFile maps a domain to the
byte size of its live file <domain>.log when that file exists, rotated is
the trace of successful rotation renames (domain and rotation time), and
appends is the trace of the successful append calls (domain and content).
The association lists follow Python dict semantics: updating an existing
key keeps its position, a new key is appended, popping removes it.  Each
call takes a WriteIn input giving the wall-clock time and the outcome of
the fallible I/O calls: writeOk is whether the underlying file write
succeeds (false embeds the except branch of _write_to_file), renameOk is
whether the rotation rename succeeds. -/

/-- Association-list lookup with string keys. -/
def alookup (k : String) : List (String × Nat) → Option Nat
  | [] => none
  | p :: rest => if p.1 = k then some p.2 else alookup k rest

/-- Association-list update with Python dict ordering: update in place,
or append a new key at the end. -/
def aset (k : String) (v : Nat) : List (String × Nat) → List (String × Nat)
  | [] => [(k, v)]
  | p :: rest => if p.1 = k then (k, v) :: rest else p :: aset k v rest

/-- Association-list removal (dict.pop with a default). -/
def aerase (k : String) (l : List (String × Nat)) : List (String × Nat) :=
  l.filter (fun p => decide (p.1 ≠ k))

/-- Python min over the keys of file_access keyed by the stored timestamp:
the first key holding the smallest value, in dict order. -/
def argminAccAux (bk : String) (bv : Nat) : List (String × Nat) → String
  | [] => bk
  | p :: rest => if p.2 < bv then argminAccAux p.1 p.2 rest else argminAccAux bk bv rest

/-- The minimizing key of a non-empty access table. -/
def argminAcc : List (String × Nat) → Option String
  | [] => none
  | p :: rest => some (argminAccAux p.1 p.2 rest)

/-- Configuration of the sink: the rotation threshold (FILE_ROTATION_SIZE,
default 104857600) and the open-handle cap (MAX_FILE_DESCRIPTORS, default
50), both read from the environment by logger.py. -/
structure SinkConfig where
  rotationSize : Nat
  maxFDs : Nat

/-- The LogManager state together with the modelled filesystem and traces. -/
structure SinkState where
  liveFile : List (String × Nat)
  rotated : List (String × Nat)
  rotations : Nat
  handles : List String
  file_sizes : List (String × Nat)
  file_access : List (String × Nat)
  buffers : List (String × List String)
  running : Bool
  errors : Nat
  logsWritten : Nat
  domainsCount : Nat
  appends : List (String × String)

/-- The state right after LogManager.__init__ (logger.py 125-146). -/
def initSink : SinkState :=
  ⟨[], [], 0, [], [], [], [], true, 0, 0, 0, []⟩

/-- Per-call input: the wall clock and the outcome of the fallible I/O. -/
structure WriteIn where
  now : Nat
  writeOk : Bool
  renameOk : Bool
deriving DecidableEq

/-- LogManager._rotate_log (logger.py 383-404): close and drop the handle
if open, rename the live file to the timestamped name (failure of the
rename is caught and only logged), and reset the size counter to zero. -/
def rotateLog (d : String) (inp : WriteIn) (s : SinkState) : SinkState :=
  if inp.renameOk then
    { s with handles := s.handles.erase d,
             liveFile := aerase d s.liveFile,
             rotated := s.rotated ++ [(d, inp.now)],
             rotations := s.rotations + 1,
             file_sizes := aset d 0 s.file_sizes }
  else
    { s with handles := s.handles.erase d,
             rotations := s.rotations + 1,
             file_sizes := aset d 0 s.file_sizes }

/-- The rotation check of _write_to_file (logger.py 329-336): only when the
live file exists, and the on-disk size plus the content byte length reaches
the threshold. -/
def rotateIfNeeded (cfg : SinkConfig) (d : String) (blen : Nat) (inp : WriteIn)
    (s : SinkState) : SinkState :=
  match alookup d s.liveFile with
  | none => s
  | some sz => if cfg.rotationSize ≤ sz + blen then rotateLog d inp s else s

/-- LogManager._close_oldest_file (logger.py 406-421): nothing to do
without open handles; otherwise pop the key with the oldest last-access
timestamp from both tables, closing its handle if it has one.  An empty
access table would make the Python min raise, which the surrounding
try/except swallows; that is the second no-change case. -/
def closeOldest (s : SinkState) : SinkState :=
  if s.handles = [] then s
  else
    match argminAcc s.file_access with
    | none => s
    | some k => { s with handles := s.handles.erase k, file_access := aerase k s.file_access }

/-- The file-descriptor-limit check of _write_to_file (logger.py 339-340). -/
def evictIfNeeded (cfg : SinkConfig) (d : String) (s : SinkState) : SinkState :=
  if cfg.maxFDs ≤ s.handles.length ∧ d ∉ s.handles then closeOldest s else s

/-- The open step of _write_to_file (logger.py 343-355): append-open the
live file (creating it empty when absent), record the handle, and
initialize the size counter from the on-disk size. -/
def openHandle (d : String) (s : SinkState) : SinkState :=
  match alookup d s.liveFile with
  | some sz =>
    { s with handles := s.handles ++ [d], file_sizes := aset d sz s.file_sizes }
  | none =>
    { s with liveFile := aset d 0 s.liveFile,
             handles := s.handles ++ [d],
             file_sizes := aset d 0 s.file_sizes }

/-- Open only when the domain has no open handle. -/
def openIfNeeded (d : String) (s : SinkState) : SinkState :=
  if d ∈ s.handles then s else openHandle d s

/-- The write itself (logger.py 357-370) and its except branch (372-381):
on success the content is appended to the live file, the size counter and
access time are updated and the write is recorded; on an I/O error the
error counter is incremented and the handle for the partition is closed
and discarded. -/
def doWrite (d content : String) (inp : WriteIn) (s : SinkState) : SinkState :=
  if inp.writeOk then
    { s with
        liveFile := aset d ((alookup d s.liveFile).getD 0 + byteLen content) s.liveFile,
        file_sizes := aset d ((alookup d s.file_sizes).getD 0 + byteLen content) s.file_sizes,
        file_access := aset d inp.now s.file_access,
        logsWritten := s.logsWritten + 1,
        appends := s.appends ++ [(d, content)] }
  else
    { s with errors := s.errors + 1, handles := s.handles.erase d }

/-- LogManager._write_to_file (logger.py 319-381): sanitize the domain,
rotate if needed, enforce the descriptor cap, open if needed, then write. -/
def write_to_file (cfg : SinkConfig) (dom content : String) (inp : WriteIn)
    (s : SinkState) : SinkState :=
  doWrite (sanitizeDomain dom) content inp
    (openIfNeeded (sanitizeDomain dom)
      (evictIfNeeded cfg (sanitizeDomain dom)
        (rotateIfNeeded cfg (sanitizeDomain dom) (byteLen content) inp s)))

/-- The line formatting of write_log (logger.py 291-294): bracketed
timestamp, the line with trailing newlines stripped, one final newline. -/
def formatLine (ts line : String) : String :=
  "[" ++ ts ++ "] " ++ rstripNewlines line ++ "\n"

/-- LogManager.write_log (logger.py 279-299): sanitize the domain, format
the line, and delegate to _write_to_file (which sanitizes again). -/
def write_log (cfg : SinkConfig) (dom line ts : String) (inp : WriteIn)
    (s : SinkState) : SinkState :=
  write_to_file cfg (sanitizeDomain dom) (formatLine ts line) inp s

/-- LogManager.flush_buffers (logger.py 301-317): write out every
non-empty buffer, clear the buffers, and record the domain count metric. -/
def flush_buffers (cfg : SinkConfig) (inp : WriteIn) (s : SinkState) : SinkState :=
  let s1 := s.buffers.foldl
    (fun acc p => if p.2 = [] then acc else write_to_file cfg p.1 (String.join p.2) inp acc) s
  { s1 with buffers := s1.buffers.map (fun p => (p.1, ([] : List String))),
            domainsCount := s1.handles.length }

/-- LogManager.close_all (logger.py 423-435): mark not running, flush,
close every handle and clear the handle and access tables. -/
def close_all (cfg : SinkConfig) (inp : WriteIn) (s : SinkState) : SinkState :=
  let s1 := flush_buffers cfg inp { s with running := false }
  { s1 with handles := [], file_access := [] }

/-- One operation applied to the sink by its callers. -/
inductive SinkOp where
  | write (dom content : String) (inp : WriteIn)
  | flush (inp : WriteIn)
  | closeEverything (inp : WriteIn)
deriving DecidableEq

/-- Apply one operation. -/
def applySinkOp (cfg : SinkConfig) (s : SinkState) : SinkOp → SinkState
  | SinkOp.write d c inp => write_to_file cfg d c inp s
  | SinkOp.flush inp => flush_buffers cfg inp s
  | SinkOp.closeEverything inp => close_all cfg inp s

/-- Run a sequence of operations from the initial state. -/
def runSinkOps (cfg : SinkConfig) (ops : List SinkOp) : SinkState :=
  ops.foldl (applySinkOp cfg) initSink

/-- Whether an operation carries a successful write outcome (flush and
close never fail in the model since the buffers stay empty). -/
def sinkOpOk : SinkOp → Bool
  | SinkOp.write _ _ inp => inp.writeOk
  | _ => true

/-- The key list of an association table, in dict order. -/
def keysOf (l : List (String × Nat)) : List String :=
  l.map Prod.fst

/-- The sink invariant: the open-handle list has no duplicates, the access
table has no duplicate keys, the open partitions are exactly the keys of
the access table, the handle count respects the cap, and the buffers are
empty (nothing in the code ever fills them). -/
structure SinkGood (cfg : SinkConfig) (s : SinkState) : Prop where
  ndh : s.handles.Nodup
  nda : (keysOf s.file_access).Nodup
  keys : ∀ x, x ∈ s.handles ↔ x ∈ keysOf s.file_access
  card : s.handles.length ≤ cfg.maxFDs
  buf : s.buffers = []

/-- Configuration and operation sequence of the C1 counterexample: cap 1,
a successful write to partition a, a failing write to a (which discards the
handle but leaves the stale last-access entry), then successful writes to b
and c. -/
def cfgC1 : SinkConfig := ⟨1000, 1⟩

def opsC1 : List SinkOp :=
  [SinkOp.write "a" "x" ⟨1, true, true⟩, SinkOp.write "a" "x" ⟨2, false, true⟩,
   SinkOp.write "b" "y" ⟨3, true, true⟩, SinkOp.write "c" "z" ⟨4, true, true⟩]

/-- Configuration and operations of the C1 witness: cap 2, two successful
writes filling the cap. -/
def cfgC1w : SinkConfig := ⟨1000, 2⟩

def opsC1w : List SinkOp :=
  [SinkOp.write "a" "x" ⟨1, true, true⟩, SinkOp.write "b" "y" ⟨2, true, true⟩]

/-- Configuration of the C2 counterexample and witness: rotation threshold
4 bytes, handle cap 50. -/
def cfgC2 : SinkConfig := ⟨4, 50⟩

/-- A sink state whose partition a has a live file of 3 bytes. -/
def c2s0 : SinkState := write_to_file cfgC2 "a" "abc" ⟨1, true, true⟩ initSink

/-- Sink states of the C8 counterexample: one write, then close_all, then
another write that the sink happily accepts. -/
def cfgC8 : SinkConfig := ⟨1000, 50⟩

def c8s1 : SinkState := write_log cfgC8 "a" "hello" "t1" ⟨1, true, true⟩ initSink

def c8s2 : SinkState := close_all cfgC8 ⟨2, true, true⟩ c8s1

def c8s3 : SinkState := write_log cfgC8 "a" "again" "t3" ⟨3, true, true⟩ c8s2

/-- Configuration of the C9 witness. -/
def cfgC9 : SinkConfig := ⟨1000, 50⟩

/-! ### FreeSwitchLogCollector.process_event (logger.py 505-600) -/

/-- The collector state that deduplication reads: the bounded recency
window recent_event_ids (a deque with maxlen 10000, logger.py 449). -/
structure CollectorState where
  recent : List String
deriving DecidableEq

/-- collections.deque(maxlen).append: append on the right, discarding from
the left when over capacity. -/
def dequeAppend (maxlen : Nat) (x : String) (l : List String) : List String :=
  if maxlen < (l ++ [x]).length then (l ++ [x]).drop ((l ++ [x]).length - maxlen)
  else l ++ [x]

/-- The (event-name, unique-id) deduplication key (logger.py 507-513); the
surrounding try maps any throwing access to no key at all, and Python's
falsy-or chain picks Event-UUID when Unique-ID is absent or empty. -/
def eventIdOf (ev : Event) : Option String :=
  match ev.header "Event-Name" with
  | Except.error _ => none
  | Except.ok en0 =>
    match ev.header "Unique-ID" with
    | Except.error _ => none
    | Except.ok u1 =>
      if (u1.getD "") ≠ "" then some ((en0.getD "") ++ "|" ++ (u1.getD ""))
      else
        match ev.header "Event-UUID" with
        | Except.error _ => none
        | Except.ok u2 => some ((en0.getD "") ++ "|" ++ (u2.getD ""))

/-- getBody with its try/except and falsy-or fallback to the empty
string. -/
def bodyOr (ev : Event) : String :=
  match ev.body with
  | Except.error _ => ""
  | Except.ok b => b.getD ""

/-- The log level of a LOG event (logger.py 533-538): protected accesses,
falling back to INFO. -/
def logLevelOf (ev : Event) : String :=
  match ev.header "Log-Level" with
  | Except.error _ => "INFO"
  | Except.ok v1 =>
    if (v1.getD "") ≠ "" then v1.getD ""
    else
      match ev.header "Severity" with
      | Except.error _ => "INFO"
      | Except.ok v2 => if (v2.getD "") ≠ "" then v2.getD "" else "INFO"

/-- The file and line prefix of a LOG event (logger.py 540-547). -/
def fileInfoOf (ev : Event) : String :=
  match ev.header "File" with
  | Except.error _ => ""
  | Except.ok f0 =>
    match ev.header "Line" with
    | Except.error _ => ""
    | Except.ok l0 =>
      if (f0.getD "") ≠ "" ∨ (l0.getD "") ≠ "" then
        if (f0.getD "") ≠ "" ∧ (l0.getD "") ≠ "" then
          "[" ++ f0.getD "" ++ ":" ++ l0.getD "" ++ "] "
        else "[" ++ (if (f0.getD "") ≠ "" then f0.getD "" else l0.getD "") ++ "] "
      else ""

/-- The priority of a non-LOG event (logger.py 559): these two accesses are
not wrapped in a try, so a throwing access aborts process_event through the
outer except. -/
def priorityOf (ev : Event) : Except Unit String :=
  match ev.header "Log-Level" with
  | Except.error e => Except.error e
  | Except.ok v1 =>
    if (v1.getD "") ≠ "" then Except.ok (v1.getD "")
    else
      match ev.header "Severity" with
      | Except.error e => Except.error e
      | Except.ok v2 => Except.ok (if (v2.getD "") ≠ "" then v2.getD "" else "INFO")

/-- The headers included in the rich line of a non-LOG event (logger.py
565-569). -/
def headersOfInterest : List String :=
  ["Unique-ID", "Channel-Name", "Caller-ID-Number", "Caller-ID-Name",
   "Destination-Number", "Caller-Domain", "Callee-Domain", "Channel-State",
   "Call-Direction", "Application", "Application-Data"]

/-- The name=value parts of the rich line (logger.py 570-577), each access
individually protected. -/
def headerPartsOf (ev : Event) : List String :=
  headersOfInterest.foldr
    (fun h acc =>
      match ev.header h with
      | Except.error _ => acc
      | Except.ok v => if (v.getD "") ≠ "" then (h ++ "=" ++ v.getD "") :: acc else acc) []

/-- The log line construction of process_event (logger.py 522-587): a line
for LOG/CHANNEL_LOG events and for named non-heartbeat events, none for
heartbeats and unnamed events, an error when an unprotected access throws
(the outer except then swallows it and nothing is written). -/
def logDataOf (ev : Event) : Except Unit (Option String) :=
  match ev.header "Event-Name" with
  | Except.error e => Except.error e
  | Except.ok en0 =>
    if pyUpper (en0.getD "") = "LOG" ∨ pyUpper (en0.getD "") = "CHANNEL_LOG" then
      Except.ok (some (pyStrip ("[" ++ logLevelOf ev ++ "] " ++ fileInfoOf ev ++ bodyOr ev)))
    else if (en0.getD "") ≠ "" ∧ pyUpper (en0.getD "") ≠ "HEARTBEAT" then
      match priorityOf ev with
      | Except.error e => Except.error e
      | Except.ok priority =>
        Except.ok (some (pyStrip ("[" ++ (en0.getD "") ++ "] [" ++ priority ++ "] " ++
          pyStrip (String.intercalate " " (headerPartsOf ev) ++ " " ++ bodyOr ev))))
    else Except.ok none

/-- The classify-and-write tail of process_event (logger.py 589-597): the
classified write followed by the fs_cli copy of the same line. -/
def processRest (ev : Event) (st : CollectorState) :
    CollectorState × List (String × String) :=
  match logDataOf ev with
  | Except.error _ => (st, [])
  | Except.ok none => (st, [])
  | Except.ok (some l) => (st, [(extract_domain ev l, l), ("fs_cli", l)])

/-- FreeSwitchLogCollector.process_event: deduplicate on the recency
window, record the key, then build and emit the line.  The returned list
holds the write_log calls the event produces (partition key and line). -/
def process_event (N : Nat) (ev : Event) (st : CollectorState) :
    CollectorState × List (String × String) :=
  match eventIdOf ev with
  | none => processRest ev st
  | some i =>
    if i ≠ "" ∧ i ∈ st.recent then (st, [])
    else if i ≠ "" then processRest ev ⟨dequeAppend N i st.recent⟩
    else processRest ev st

/-! ### The reconnect logic of FreeSwitchLogCollector.run (logger.py 612-656) -/

/-- The connection-supervision state of the collector. -/
structure LoopState where
  attempts : Nat
  connected : Bool
deriving DecidableEq

/-- What one loop-head iteration does before polling. -/
inductive LoopAction where
  | cooldown30
  | delay5
  | poll
deriving DecidableEq

/-- self.max_connection_attempts (logger.py 448). -/
def max_connection_attempts : Nat := 5

/-- FreeSwitchLogCollector.connect (logger.py 451-503) collapsed to its
effect on the attempt counter: every failure path (unreachable TCP port,
ESL connection not established, exception) increments the counter and
reports failure; success resets the counter to zero. -/
def connectStep (ok : Bool) (attempts : Nat) : Bool × Nat :=
  if ok then (true, 0) else (false, attempts + 1)

/-- The head of one run-loop iteration (logger.py 619-632): when not
connected, reaching the attempt cap sleeps the long 30s cooldown and
resets the counter; otherwise a connect attempt is made, sleeping the
fixed RECONNECT_DELAY on failure; when connected the loop polls. -/
def loopIter (ok : Bool) (s : LoopState) : LoopState × LoopAction :=
  if s.connected then (s, LoopAction.poll)
  else if max_connection_attempts ≤ s.attempts then
    (⟨0, false⟩, LoopAction.cooldown30)
  else
    match connectStep ok s.attempts with
    | (true, a) => (⟨a, true⟩, LoopAction.poll)
    | (false, a) => (⟨a, false⟩, LoopAction.delay5)

def evHeartbeat : Event :=
  ⟨fun n => if n = "Event-Name" then Except.ok (some "HEARTBEAT")
    else if n = "Unique-ID" then Except.ok (some "hb-1")
    else Except.ok none, Except.ok none⟩

def evC6 : Event :=
  ⟨fun n => if n = "Event-Name" then Except.ok (some "CUSTOM")
    else if n = "Unique-ID" then Except.ok (some "u-6")
    else Except.ok none, Except.ok none⟩

def evChan : Event :=
  ⟨fun n => if n = "Event-Name" then Except.ok (some "CHANNEL_CREATE")
    else if n = "Unique-ID" then Except.ok (some "u1")
    else if n = "Caller-Domain" then Except.ok (some "tenant.example.com")
    else Except.ok none, Except.ok none⟩

def c10line : String := "[CHANNEL_CREATE] [INFO] Unique-ID=u1 Caller-Domain=tenant.example.com"

/-! ### Helper lemmas about the string primitives -/

theorem splitOnChar_ne_nil (sep : Char) (l : List Char) : splitOnChar sep l ≠ [] := by
  cases l with
  | nil => simp [splitOnChar]
  | cons c cs =>
    simp only [splitOnChar]
    split
    · simp
    · split
      · simp
      · simp

theorem splitOnChar_cons_eq (sep c : Char) (cs : List Char) (h : c = sep) :
    splitOnChar sep (c :: cs) = [] :: splitOnChar sep cs := by
  simp [splitOnChar, h]

theorem splitOnChar_cons_ne (sep c : Char) (cs : List Char) (h : ¬ c = sep)
    (g : List Char) (gs : List (List Char)) (hsp : splitOnChar sep cs = g :: gs) :
    splitOnChar sep (c :: cs) = (c :: g) :: gs := by
  simp [splitOnChar, h, hsp]

theorem splitOnChar_length_one (sep : Char) (l : List Char) :
    (splitOnChar sep l).length = 1 ↔ sep ∉ l := by
  induction l with
  | nil => simp [splitOnChar]
  | cons c cs ih =>
    by_cases hc : c = sep
    · rw [splitOnChar_cons_eq sep c cs hc]
      have hne := splitOnChar_ne_nil sep cs
      have hpos : 0 < (splitOnChar sep cs).length := List.length_pos.mpr hne
      simp only [List.length_cons]
      constructor
      · intro h; exfalso; omega
      · intro h; exfalso; exact h (by simp [hc])
    · match hsp : splitOnChar sep cs with
      | [] => exact absurd hsp (splitOnChar_ne_nil sep cs)
      | g :: gs =>
        rw [splitOnChar_cons_ne sep c cs hc g gs hsp]
        rw [hsp] at ih
        simp only [List.length_cons] at ih ⊢
        constructor
        · intro h
          have hnot : sep ∉ cs := ih.mp (by omega)
          intro hmem
          rcases List.mem_cons.mp hmem with h1 | h2
          · exact hc h1.symm
          · exact hnot h2
        · intro h
          have hnot : sep ∉ cs := fun hm => h (List.mem_cons_of_mem _ hm)
          have := ih.mpr hnot
          omega

theorem splitOnChar_chars (sep : Char) (l : List Char)
    (p : Char → Bool)
    (h : ∀ g ∈ splitOnChar sep l, ∀ c ∈ g, p c = true) :
    ∀ c ∈ l, p c = true ∨ c = sep := by
  induction l with
  | nil => simp
  | cons a as ih =>
    by_cases ha : a = sep
    · have hsimp : splitOnChar sep (a :: as) = [] :: splitOnChar sep as := by
        simp [splitOnChar, ha]
      rw [hsimp] at h
      intro c hc
      rcases List.mem_cons.mp hc with rfl | hmem
      · exact Or.inr ha
      · exact ih (fun g hg => h g (List.mem_cons_of_mem _ hg)) c hmem
    · match hsp : splitOnChar sep as with
      | [] => exact absurd hsp (splitOnChar_ne_nil sep as)
      | g :: gs =>
        have hsimp : splitOnChar sep (a :: as) = (a :: g) :: gs := by
          simp [splitOnChar, ha, hsp]
        rw [hsimp] at h
        intro c hc
        rcases List.mem_cons.mp hc with rfl | hmem
        · exact Or.inl (h (c :: g) (by simp) c (by simp))
        · apply ih
          · intro g' hg'
            rw [hsp] at hg'
            rcases List.mem_cons.mp hg' with rfl | hg2
            · intro c' hc'
              exact h (a :: g') (by simp) c' (List.mem_cons_of_mem _ hc')
            · intro c' hc'
              exact h g' (List.mem_cons_of_mem _ hg2) c' hc'
          · exact hmem

theorem validDomainCore_chars (d : List Char) (h : validDomainCore d = true) :
    ∀ c ∈ d, isHostChar c = true ∨ c = '.' := by
  unfold validDomainCore at h
  by_cases hl : d = "localhost".data
  · subst hl; decide
  · rw [if_neg hl] at h
    by_cases hlen : 253 < d.length
    · rw [if_pos hlen] at h; exact absurd h (by simp)
    · rw [if_neg hlen] at h
      by_cases h1 : (splitOnChar '.' d).length = 1
      · rw [if_pos h1] at h
        intro c hc
        exact Or.inl (List.all_eq_true.mp h c hc)
      · rw [if_neg h1] at h
        apply splitOnChar_chars
        intro g hg c hc
        have := List.all_eq_true.mp h g hg
        simp only [Bool.and_eq_true] at this
        exact List.all_eq_true.mp this.2 c hc

theorem validCore_iff (d : String) :
    validDomainCore d.data = true ↔
      (d = "localhost" ∨
       (d.data.length ≤ 253 ∧ '.' ∉ d.data ∧ ∀ c ∈ d.data, isHostChar c = true) ∨
       (d.data.length ≤ 253 ∧ 2 ≤ (splitOnChar '.' d.data).length ∧
        ∀ l ∈ splitOnChar '.' d.data,
          l ≠ [] ∧ l.length ≤ 63 ∧ ∀ c ∈ l, isHostChar c = true)) := by
  unfold validDomainCore
  by_cases hl : d.data = "localhost".data
  · have hd : d = "localhost" := String.ext hl
    simp [hl, hd]
  · have hd : d ≠ "localhost" := fun h => hl (by rw [h])
    rw [if_neg hl]
    by_cases hlen : 253 < d.data.length
    · rw [if_pos hlen]
      constructor
      · intro h; exact absurd h (by simp)
      · rintro (h | h | h)
        · exact absurd h hd
        · omega
        · omega
    · rw [if_neg hlen]
      have hne := splitOnChar_ne_nil '.' d.data
      have hpos : 0 < (splitOnChar '.' d.data).length := List.length_pos.mpr hne
      by_cases h1 : (splitOnChar '.' d.data).length = 1
      · rw [if_pos h1]
        have hdot : '.' ∉ d.data := (splitOnChar_length_one '.' d.data).mp h1
        constructor
        · intro h
          exact Or.inr (Or.inl ⟨by omega, hdot, List.all_eq_true.mp h⟩)
        · rintro (h | h | h)
          · exact absurd h hd
          · exact List.all_eq_true.mpr h.2.2
          · omega
      · rw [if_neg h1]
        constructor
        · intro h
          refine Or.inr (Or.inr ⟨by omega, by omega, ?_⟩)
          intro l hlmem
          have := List.all_eq_true.mp h l hlmem
          simp only [Bool.and_eq_true, Bool.not_eq_true', List.isEmpty_eq_false,
            decide_eq_true_eq] at this
          exact ⟨by
            intro hnil
            have := this.1.1
            simp [hnil] at this, this.1.2, List.all_eq_true.mp this.2⟩
        · rintro (h | h | h)
          · exact absurd h hd
          · exact absurd ((splitOnChar_length_one '.' d.data).mpr h.2.1) h1
          · apply List.all_eq_true.mpr
            intro l hlmem
            obtain ⟨hn, h63, hall⟩ := h.2.2 l hlmem
            simp only [Bool.and_eq_true, Bool.not_eq_true', List.isEmpty_eq_false,
              decide_eq_true_eq]
            exact ⟨⟨by simpa using hn, h63⟩, List.all_eq_true.mpr hall⟩

/-! ### Claim C3 -/

/-- C3 counterexample: the single-space string is accepted by
LogManager._is_valid_domain (it is truthy, strips to the empty string, and
the empty string passes the single-label check vacuously), while the claim
as stated rejects it (it is none of: localhost, a token of
alphanumeric, dash, underscore characters, or a sequence of such labels). -/
theorem c3_counterexample :
    is_valid_domain " " = true ∧ ¬ specValidDomain " " := by
  constructor
  · decide
  · intro h
    rcases h with h | h | h
    · exact absurd h (by decide)
    · have := h.2 ' ' (by decide)
      exact absurd this (by decide)
    · have := h.2.1
      revert this
      decide

/-- C3 amended: the validator accepts a candidate if and only if the
candidate is non-empty and its whitespace-stripped, lowercased form either
equals localhost, or contains no dot and only alphanumeric, dash, underscore characters
(possibly no characters at all) within the 253-length bound, or is a
dot-separated sequence of at least two labels, each 1-63 characters of
alphanumeric, dash, underscore, within the 253-length bound. -/
theorem c3_amended (s : String) : is_valid_domain s = true ↔ amendedValidDomain s := by
  unfold is_valid_domain amendedValidDomain
  by_cases hs : s = ""
  · simp [hs]
  · simp only [hs, if_false, ne_eq, not_false_iff, true_and]
    exact validCore_iff (pyLower (pyStrip s))

/-! ### Character-level facts -/

theorem char_eq_iff_toNat (c d : Char) : c = d ↔ c.toNat = d.toNat := by
  constructor
  · intro h; rw [h]
  · intro h; exact Char.eq_of_val_eq (UInt32.ext h)

theorem toLower_toNat (c : Char) :
    (Char.toLower c).toNat = if 65 ≤ c.toNat ∧ c.toNat ≤ 90 then c.toNat + 32 else c.toNat := by
  simp only [Char.toLower, ge_iff_le]
  split
  · next h =>
      unfold Char.ofNat
      split
      · rfl
      · next hn => exfalso; apply hn; left; omega
  · rfl

theorem isAlphanum_iff (c : Char) :
    Char.isAlphanum c = true ↔
      (65 ≤ c.toNat ∧ c.toNat ≤ 90) ∨ (97 ≤ c.toNat ∧ c.toNat ≤ 122) ∨
      (48 ≤ c.toNat ∧ c.toNat ≤ 57) := by
  simp only [Char.isAlphanum, Char.isAlpha, Char.isUpper, Char.isLower, Char.isDigit,
    Bool.or_eq_true, Bool.and_eq_true, decide_eq_true_eq, Char.le_def]
  constructor
  · rintro ((h | h) | h)
    · exact Or.inl ⟨h.1, h.2⟩
    · exact Or.inr (Or.inl ⟨h.1, h.2⟩)
    · exact Or.inr (Or.inr ⟨h.1, h.2⟩)
  · rintro (h | h | h)
    · exact Or.inl (Or.inl ⟨h.1, h.2⟩)
    · exact Or.inl (Or.inr ⟨h.1, h.2⟩)
    · exact Or.inr ⟨h.1, h.2⟩

theorem isHostChar_iff (c : Char) :
    isHostChar c = true ↔
      (65 ≤ c.toNat ∧ c.toNat ≤ 90) ∨ (97 ≤ c.toNat ∧ c.toNat ≤ 122) ∨
      (48 ≤ c.toNat ∧ c.toNat ≤ 57) ∨ c.toNat = 45 ∨ c.toNat = 95 := by
  simp only [isHostChar, Bool.or_eq_true, decide_eq_true_eq, isAlphanum_iff,
    char_eq_iff_toNat, show ('-' : Char).toNat = 45 from rfl,
    show ('_' : Char).toNat = 95 from rfl]
  tauto

theorem pyIsSpace_iff (c : Char) :
    pyIsSpace c = true ↔
      c.toNat = 32 ∨ c.toNat = 9 ∨ c.toNat = 10 ∨ c.toNat = 13 ∨
      c.toNat = 11 ∨ c.toNat = 12 := by
  simp only [pyIsSpace, Bool.or_eq_true, decide_eq_true_eq, char_eq_iff_toNat,
    show (' ' : Char).toNat = 32 from rfl, show ('\t' : Char).toNat = 9 from rfl,
    show ('\n' : Char).toNat = 10 from rfl, show ('\x0d' : Char).toNat = 13 from rfl,
    show ('\x0b' : Char).toNat = 11 from rfl, show ('\x0c' : Char).toNat = 12 from rfl]
  tauto

theorem isIllegalChar_iff (c : Char) :
    isIllegalChar c = true ↔
      c.toNat = 60 ∨ c.toNat = 62 ∨ c.toNat = 58 ∨ c.toNat = 34 ∨ c.toNat = 47 ∨
      c.toNat = 92 ∨ c.toNat = 124 ∨ c.toNat = 63 ∨ c.toNat = 42 ∨
      c.toNat = 32 ∨ c.toNat = 9 ∨ c.toNat = 10 ∨ c.toNat = 13 ∨
      c.toNat = 11 ∨ c.toNat = 12 := by
  simp only [isIllegalChar, illegalFileChars, List.contains_cons, List.contains_nil,
    Bool.or_eq_true, beq_iff_eq, pyIsSpace_iff, char_eq_iff_toNat,
    show ('<' : Char).toNat = 60 from rfl, show ('>' : Char).toNat = 62 from rfl,
    show (':' : Char).toNat = 58 from rfl, show ('"' : Char).toNat = 34 from rfl,
    show ('/' : Char).toNat = 47 from rfl, show ('\\' : Char).toNat = 92 from rfl,
    show ('|' : Char).toNat = 124 from rfl, show ('?' : Char).toNat = 63 from rfl,
    show ('*' : Char).toNat = 42 from rfl]
  tauto

theorem isUpperAZ_toLower (c : Char) : isUpperAZ (Char.toLower c) = false := by
  rw [Bool.eq_false_iff]
  intro h
  simp only [isUpperAZ, Bool.and_eq_true, decide_eq_true_eq] at h
  rw [toLower_toNat] at h
  revert h
  split <;> omega

theorem pyIsSpace_toLower (c : Char) : pyIsSpace (Char.toLower c) = pyIsSpace c := by
  rw [Bool.eq_iff_iff, pyIsSpace_iff, pyIsSpace_iff, toLower_toNat]
  split <;> omega

theorem isIllegalChar_toLower (c : Char) : isIllegalChar (Char.toLower c) = isIllegalChar c := by
  rw [Bool.eq_iff_iff, isIllegalChar_iff, isIllegalChar_iff, toLower_toNat]
  split <;> omega

theorem hostOrDot_not_illegal (c : Char) (h : isHostChar c = true ∨ c = '.') :
    isIllegalChar c = false := by
  rcases h with h | rfl
  · rw [Bool.eq_false_iff]
    intro hi
    have hi' := (isIllegalChar_iff c).mp hi
    have hh := (isHostChar_iff c).mp h
    omega
  · decide

theorem pyIsSpace_of_illegal_dropped (c : Char) (h : pyIsSpace c = true) :
    isIllegalChar c = true := by
  simp only [isIllegalChar, Bool.or_eq_true]
  exact Or.inr h

/-! ### String normalization facts: strip, lower and the sanitizing filter -/

theorem dropWhile_eq_self_of_prefix (p : Char → Bool) (X Y : List Char)
    (hx : X.dropWhile p = X) (hpre : Y <+: X) : Y.dropWhile p = Y := by
  cases Y with
  | nil => simp
  | cons a as =>
    obtain ⟨t, ht⟩ := hpre
    have hX : X = a :: (as ++ t) := by rw [← ht]; simp
    have hpa : p a = false := by
      by_contra hh
      have hpa' : p a = true := by revert hh; cases p a <;> simp
      rw [hX, List.dropWhile_cons, if_pos hpa'] at hx
      have hle : (List.dropWhile p (as ++ t)).length ≤ (as ++ t).length :=
        (List.dropWhile_suffix p).sublist.length_le
      rw [hx] at hle
      simp at hle
    simp [List.dropWhile_cons, hpa]

theorem stripL_idem (l : List Char) : stripL (stripL l) = stripL l := by
  have hR : stripL l = List.rdropWhile pyIsSpace (l.dropWhile pyIsSpace) := rfl
  have h1 : (stripL l).dropWhile pyIsSpace = stripL l := by
    rw [hR]
    exact dropWhile_eq_self_of_prefix _ _ _ (List.dropWhile_idempotent _ _)
      (List.rdropWhile_prefix _ _)
  show List.rdropWhile pyIsSpace ((stripL l).dropWhile pyIsSpace) = stripL l
  rw [h1, hR, List.rdropWhile_idempotent]

theorem stripL_map_toLower (l : List Char) :
    stripL (l.map Char.toLower) = (stripL l).map Char.toLower := by
  have hfun : pyIsSpace ∘ Char.toLower = pyIsSpace := funext fun c => pyIsSpace_toLower c
  show List.rdropWhile pyIsSpace ((l.map Char.toLower).dropWhile pyIsSpace) =
    (List.rdropWhile pyIsSpace (l.dropWhile pyIsSpace)).map Char.toLower
  rw [List.dropWhile_map, hfun]
  unfold List.rdropWhile
  rw [← List.map_reverse, List.dropWhile_map, hfun, ← List.map_reverse]

theorem filter_keep_dropWhile (l : List Char) :
    (l.dropWhile pyIsSpace).filter (fun c => !(isIllegalChar c)) =
      l.filter (fun c => !(isIllegalChar c)) := by
  induction l with
  | nil => simp
  | cons c cs ih =>
    by_cases h : pyIsSpace c = true
    · have hil : isIllegalChar c = true := pyIsSpace_of_illegal_dropped c h
      simp [List.dropWhile_cons, h, List.filter_cons, hil, ih]
    · have h' : pyIsSpace c = false := by revert h; cases pyIsSpace c <;> simp
      simp [List.dropWhile_cons, h']

theorem filter_keep_stripL (l : List Char) :
    (stripL l).filter (fun c => !(isIllegalChar c)) =
      l.filter (fun c => !(isIllegalChar c)) := by
  show ((List.rdropWhile pyIsSpace (l.dropWhile pyIsSpace)).filter _) = _
  unfold List.rdropWhile
  rw [List.filter_reverse, filter_keep_dropWhile, ← List.filter_reverse,
    List.reverse_reverse, filter_keep_dropWhile]

theorem pyStrip_idem (s : String) : pyStrip (pyStrip s) = pyStrip s :=
  String.ext (stripL_idem s.data)

theorem pyStrip_pyLower (s : String) : pyStrip (pyLower s) = pyLower (pyStrip s) :=
  String.ext (stripL_map_toLower s.data)

theorem removeIllegal_pyStrip (s : String) : removeIllegal (pyStrip s) = removeIllegal s :=
  String.ext (filter_keep_stripL s.data)

theorem removeIllegal_eq_self (s : String) (h : ∀ c ∈ s.data, isIllegalChar c = false) :
    removeIllegal s = s := by
  apply String.ext
  show s.data.filter _ = s.data
  rw [List.filter_eq_self]
  intro a ha
  simp [h a ha]

theorem pyLower_eq_empty_iff (s : String) : pyLower s = "" ↔ s = "" := by
  rw [String.ext_iff, String.ext_iff]
  show s.data.map Char.toLower = ([] : List Char) ↔ s.data = ([] : List Char)
  simp

theorem goodKey_unknown : goodKey "unknown" := by
  refine ⟨by decide, by decide, by decide⟩

theorem goodKey_orUnknown_lower (y : String) :
    goodKey (orUnknown (removeIllegal (pyLower y))) := by
  unfold orUnknown
  split
  · exact goodKey_unknown
  · next hne =>
    refine ⟨hne, ?_, ?_⟩
    · intro c hc
      have hmem : c ∈ (pyLower y).data.filter (fun c => !(isIllegalChar c)) := hc
      have hb := (List.mem_filter.mp hmem).2
      revert hb
      cases isIllegalChar c <;> simp
    · intro c hc
      have hmem : c ∈ (pyLower y).data.filter (fun c => !(isIllegalChar c)) := hc
      have hmem2 : c ∈ y.data.map Char.toLower := (List.mem_filter.mp hmem).1
      obtain ⟨a, _, rfl⟩ := List.mem_map.mp hmem2
      exact isUpperAZ_toLower a

theorem goodKey_orUnknown_strip_lower (y : String) :
    goodKey (orUnknown (removeIllegal (pyStrip (pyLower y)))) := by
  rw [removeIllegal_pyStrip]
  exact goodKey_orUnknown_lower y

theorem sipBranchKey_goodKey (v k : String) (h : sipBranchKey v = some k) : goodKey k := by
  unfold sipBranchKey at h
  split at h
  · split at h
    · split at h
      · cases h
        exact goodKey_orUnknown_strip_lower _
      · exact absurd h (by simp)
    · exact absurd h (by simp)
  · exact absurd h (by simp)

theorem candidateKeyCore_goodKey (v k : String) (h : candidateKeyCore v = some k) :
    goodKey k := by
  unfold candidateKeyCore at h
  split at h
  · exact absurd h (by simp)
  · split at h
    · exact absurd h (by simp)
    · split at h
      · next k' heq => cases h; exact sipBranchKey_goodKey _ _ heq
      · split at h
        · cases h; exact goodKey_orUnknown_strip_lower _
        · exact absurd h (by simp)

theorem candidateKey_goodKey (val k : String) (h : candidateKey val = some k) : goodKey k :=
  candidateKeyCore_goodKey _ _ h

theorem firstHeaderKey_goodKey (ev : Event) (names : List String) (k : String)
    (h : firstHeaderKey ev names = some k) : goodKey k := by
  induction names with
  | nil => exact absurd h (by simp [firstHeaderKey])
  | cons n rest ih =>
    unfold firstHeaderKey at h
    split at h
    · exact ih h
    · split at h
      · exact ih h
      · split at h
        · next k' heq => cases h; exact candidateKey_goodKey _ _ heq
        · exact ih h

theorem callerIdDomainKey_goodKey (v k : String) (h : callerIdDomainKey v = some k) :
    goodKey k := by
  unfold callerIdDomainKey at h
  split at h
  · cases h; exact goodKey_orUnknown_lower _
  · exact absurd h (by simp)

theorem callerIdKey_goodKey (ev : Event) (k : String) (h : callerIdKey ev = some k) :
    goodKey k := by
  unfold callerIdKey at h
  split at h
  · exact absurd h (by simp)
  · split at h
    · exact absurd h (by simp)
    · split at h
      · exact callerIdDomainKey_goodKey _ _ h
      · exact absurd h (by simp)

theorem sipHostKey_goodKey (v k : String) (h : sipHostKey v = some k) : goodKey k := by
  unfold sipHostKey at h
  split at h
  · split at h
    · cases h; exact goodKey_orUnknown_lower _
    · exact absurd h (by simp)
  · exact absurd h (by simp)

theorem fromToChannelKey_goodKey (ev : Event) (names : List String) (k : String)
    (h : fromToChannelKey ev names = some k) : goodKey k := by
  induction names with
  | nil => exact absurd h (by simp [fromToChannelKey])
  | cons n rest ih =>
    unfold fromToChannelKey at h
    split at h
    · exact ih h
    · split at h
      · exact ih h
      · split at h
        · next k' heq => cases h; exact sipHostKey_goodKey _ _ heq
        · exact ih h

theorem capKey_goodKey (cap : List Char) (k : String) (h : capKey cap = some k) :
    goodKey k := by
  unfold capKey at h
  split at h
  · exact absurd h (by simp)
  · split at h
    · cases h; exact goodKey_orUnknown_lower _
    · exact absurd h (by simp)

theorem firstSomeKey_goodKey (tries : List (Option (List Char))) (k : String)
    (h : firstSomeKey tries = some k) : goodKey k := by
  induction tries with
  | nil => exact absurd h (by simp [firstSomeKey])
  | cons t rest ih =>
    unfold firstSomeKey at h
    split at h
    · exact ih h
    · split at h
      · next k' heq => cases h; exact capKey_goodKey _ _ heq
      · exact ih h

theorem regexChainKey_goodKey (line k : String) (h : regexChainKey line = some k) :
    goodKey k := by
  unfold regexChainKey at h
  split at h
  · exact absurd h (by simp)
  · exact firstSomeKey_goodKey _ _ h

theorem extract_domain_goodKey (ev : Event) (line : String) :
    goodKey (extract_domain ev line) := by
  unfold extract_domain
  split
  · next k h => exact firstHeaderKey_goodKey ev _ k h
  · split
    · next k h => exact callerIdKey_goodKey ev k h
    · split
      · next k h => exact fromToChannelKey_goodKey ev _ k h
      · split
        · next k h => exact regexChainKey_goodKey line k h
        · exact goodKey_unknown

/-! ### Absent headers and the unknown fallback -/

theorem firstHeaderKey_none (ev : Event) (names : List String)
    (h : ∀ n, getHeaderOr ev n = none) : firstHeaderKey ev names = none := by
  induction names with
  | nil => rfl
  | cons n rest ih =>
    unfold firstHeaderKey
    rw [h n]
    exact ih

theorem callerIdKey_none (ev : Event) (h : ∀ n, getHeaderOr ev n = none) :
    callerIdKey ev = none := by
  unfold callerIdKey
  rw [h "Caller-ID-Number"]

theorem fromToChannelKey_none (ev : Event) (names : List String)
    (h : ∀ n, getHeaderOr ev n = none) : fromToChannelKey ev names = none := by
  induction names with
  | nil => rfl
  | cons n rest ih =>
    unfold fromToChannelKey
    rw [h n]
    exact ih

/-! ### The classifier on a valid primary domain attribute -/

theorem valid_chars_strip (D : String) (hval : is_valid_domain D = true) :
    ∀ c ∈ (pyLower (pyStrip D)).data, isHostChar c = true ∨ c = '.' := by
  have hDne : D ≠ "" := by
    intro h; rw [h] at hval; exact absurd hval (by decide)
  unfold is_valid_domain at hval
  rw [if_neg hDne] at hval
  exact validDomainCore_chars _ hval

theorem no_at_in_strip (D : String) (hval : is_valid_domain D = true) :
    pyContainsChar (pyStrip D) '@' = false := by
  rw [Bool.eq_false_iff]
  intro hc
  have hmem : '@' ∈ (pyStrip D).data := by
    simpa [pyContainsChar] using hc
  have hmem3 : ('@' : Char) ∈ (pyLower (pyStrip D)).data := by
    show ('@' : Char) ∈ (pyStrip D).data.map Char.toLower
    rw [show ('@' : Char) = Char.toLower '@' from rfl]
    exact List.mem_map_of_mem _ hmem
  rcases valid_chars_strip D hval '@' hmem3 with h | h
  · exact absurd h (by decide)
  · exact absurd h (by decide)

theorem no_sip_in_strip (D : String) (hval : is_valid_domain D = true) :
    pyContainsStr (pyStrip D) "sip:" = false := by
  rw [Bool.eq_false_iff]
  intro hc
  have hinf : "sip:".data <:+: (pyStrip D).data := by
    simpa [pyContainsStr] using hc
  have hmem : (':' : Char) ∈ (pyStrip D).data := hinf.subset (by decide)
  have hmem3 : ((':') : Char) ∈ (pyLower (pyStrip D)).data := by
    show ((':') : Char) ∈ (pyStrip D).data.map Char.toLower
    rw [show ((':') : Char) = Char.toLower ':' from rfl]
    exact List.mem_map_of_mem _ hmem
  rcases valid_chars_strip D hval ':' hmem3 with h | h
  · exact absurd h (by decide)
  · exact absurd h (by decide)

theorem sipBranchKey_of_valid (D : String) (hval : is_valid_domain D = true) :
    sipBranchKey (pyStrip D) = none := by
  unfold sipBranchKey
  rw [no_sip_in_strip D hval, no_at_in_strip D hval]
  rfl

theorem is_valid_domain_strip (D : String) (hval : is_valid_domain D = true)
    (hne : pyStrip D ≠ "") : is_valid_domain (pyStrip D) = true := by
  have hDne : D ≠ "" := fun h => hne (by rw [h]; rfl)
  unfold is_valid_domain at hval ⊢
  rw [if_neg hDne] at hval
  rw [if_neg hne, pyStrip_idem]
  exact hval

theorem valid_result_eq (D : String) (hval : is_valid_domain D = true)
    (hne : pyStrip D ≠ "") :
    orUnknown (removeIllegal (pyStrip (pyLower (pyStrip D)))) = removeIllegal (pyLower D) := by
  have hchars := valid_chars_strip D hval
  have hni : ∀ c ∈ (pyLower (pyStrip D)).data, isIllegalChar c = false :=
    fun c hc => hostOrDot_not_illegal c (hchars c hc)
  have h1 : pyStrip (pyLower (pyStrip D)) = pyLower (pyStrip D) := by
    rw [pyStrip_pyLower, pyStrip_idem]
  have h2 : removeIllegal (pyLower (pyStrip D)) = pyLower (pyStrip D) :=
    removeIllegal_eq_self _ hni
  have h3 : pyLower (pyStrip D) ≠ "" := by
    rw [Ne, pyLower_eq_empty_iff]; exact hne
  have hfin : removeIllegal (pyLower D) = pyLower (pyStrip D) := by
    calc removeIllegal (pyLower D)
        = removeIllegal (pyStrip (pyLower D)) := (removeIllegal_pyStrip (pyLower D)).symm
      _ = removeIllegal (pyLower (pyStrip D)) := by rw [pyStrip_pyLower]
      _ = pyLower (pyStrip D) := h2
  rw [h1, h2]
  unfold orUnknown
  rw [if_neg h3]
  exact hfin.symm

theorem candidateKeyCore_of_valid (D : String)
    (hval : is_valid_domain D = true) (hne : pyStrip D ≠ "")
    (hdef : pyLower (pyStrip D) ≠ "default") :
    candidateKeyCore (pyStrip D) = some (removeIllegal (pyLower D)) := by
  unfold candidateKeyCore
  rw [if_neg hne, if_neg hdef, sipBranchKey_of_valid D hval]
  simp only [is_valid_domain_strip D hval hne, if_true]
  rw [valid_result_eq D hval hne]

/-! ### Claim C4 -/

/-- C4 counterexample: the string default is a valid domain under the
validation rule (a single alphanumeric token), but the classifier skips any
candidate equal to the literal default, so an event whose primary domain
attribute is default classifies to unknown rather than to
lowercase(default) = default. -/
theorem c4_counterexample :
    is_valid_domain "default" = true ∧
    extract_domain (evHeaderOnly "domain_name" "default") "" = "unknown" ∧
    removeIllegal (pyLower "default") = "default" ∧
    ("unknown" : String) ≠ "default" := by
  refine ⟨by decide, by decide, by decide, by decide⟩

/-- C4 amended: for every valid domain string D whose stripped form is
non-empty and does not equal the literal default case-insensitively,
classifying an event whose primary domain attribute (the domain_name
header, the first candidate probed) exposes D returns exactly lowercase(D)
with the illegal filename characters and whitespace stripped; and every key
the classifier returns on any event and line is non-empty, free of illegal
filename characters, and lower-case. -/
theorem c4_amended :
    (∀ (D line : String) (ev : Event),
      ev.header "domain_name" = Except.ok (some D) →
      is_valid_domain D = true →
      pyStrip D ≠ "" →
      pyLower (pyStrip D) ≠ "default" →
      extract_domain ev line = removeIllegal (pyLower D)) ∧
    (∀ (ev : Event) (line : String), goodKey (extract_domain ev line)) := by
  constructor
  · intro D line ev hh hval hne hdef
    have hget : getHeaderOr ev "domain_name" = some D := by
      simp [getHeaderOr, hh]
    have hDne : D ≠ "" := fun h => hne (by rw [h]; rfl)
    have h1 : firstHeaderKey ev headerCandidates = some (removeIllegal (pyLower D)) := by
      unfold headerCandidates firstHeaderKey
      simp only [hget]
      rw [if_neg hDne]
      unfold candidateKey
      rw [candidateKeyCore_of_valid D hval hne hdef]
    unfold extract_domain
    rw [h1]
  · intro ev line
    exact extract_domain_goodKey ev line

/-- C4 witness: a concrete valid mixed-case domain with surrounding
whitespace classifies to its lowercased, whitespace-stripped form. -/
theorem c4_witness :
    extract_domain (evHeaderOnly "domain_name" " Example.COM ") "" =
      removeIllegal (pyLower " Example.COM ") ∧
    goodKey (extract_domain (evHeaderOnly "domain_name" " Example.COM ") "") :=
  ⟨c4_amended.1 " Example.COM " "" (evHeaderOnly "domain_name" " Example.COM ")
      rfl (by decide) (by decide) (by decide),
   c4_amended.2 (evHeaderOnly "domain_name" " Example.COM ") ""⟩

/-! ### Claim C5 -/

/-- C5: the classifier is total over the embedding (attribute-access
failure is a value, not an exception) and returns the unknown sentinel
whenever every attribute access fails or yields nothing and no line regex
yields a valid domain. -/
theorem c5_unknown_fallback (ev : Event) (line : String)
    (habs : ∀ n, ev.header n = Except.error () ∨ ev.header n = Except.ok none)
    (hre : regexChainKey line = none) :
    extract_domain ev line = "unknown" := by
  have hno : ∀ n, getHeaderOr ev n = none := by
    intro n
    rcases habs n with h | h <;> simp [getHeaderOr, h]
  unfold extract_domain
  rw [firstHeaderKey_none ev _ hno, callerIdKey_none ev hno,
    fromToChannelKey_none ev _ hno, hre]

/-- C5 witness: an event on which every attribute access throws, and a line
matching no pattern, classify to unknown. -/
theorem c5_witness :
    extract_domain evAllFail "collector started and waiting" = "unknown" :=
  c5_unknown_fallback evAllFail "collector started and waiting"
    (fun _ => Or.inl rfl) (by decide)

/-! ### Association-table lemmas -/

theorem mem_keys_aset (x k : String) (v : Nat) (l : List (String × Nat)) :
    x ∈ keysOf (aset k v l) ↔ x ∈ keysOf l ∨ x = k := by
  induction l with
  | nil => simp [aset, keysOf]
  | cons p rest ih =>
    by_cases h : p.1 = k
    · subst h
      have he : aset p.1 v (p :: rest) = (p.1, v) :: rest := by
        unfold aset
        rw [if_pos rfl]
      rw [he]
      simp only [keysOf, List.map_cons, List.mem_cons]
      tauto
    · simp only [aset, if_neg h, keysOf, List.map_cons, List.mem_cons]
      simp only [keysOf] at ih
      tauto

theorem nodup_keys_aset (k : String) (v : Nat) (l : List (String × Nat))
    (h : (keysOf l).Nodup) : (keysOf (aset k v l)).Nodup := by
  induction l with
  | nil => simp [aset, keysOf]
  | cons p rest ih =>
    simp only [keysOf, List.map_cons, List.nodup_cons] at h
    by_cases hp : p.1 = k
    · simp only [aset, if_pos hp, keysOf, List.map_cons, List.nodup_cons]
      exact ⟨by rw [← hp]; exact h.1, h.2⟩
    · simp only [aset, if_neg hp, keysOf, List.map_cons, List.nodup_cons]
      refine ⟨?_, ih h.2⟩
      intro hmem
      rcases (mem_keys_aset p.1 k v rest).mp hmem with h1 | h1
      · exact h.1 h1
      · exact hp h1

theorem mem_keys_aerase (x k : String) (l : List (String × Nat)) :
    x ∈ keysOf (aerase k l) ↔ x ∈ keysOf l ∧ x ≠ k := by
  simp only [keysOf, aerase, List.mem_map, List.mem_filter, decide_eq_true_eq]
  constructor
  · rintro ⟨p, ⟨hp, hne⟩, rfl⟩
    exact ⟨⟨p, hp, rfl⟩, hne⟩
  · rintro ⟨⟨p, hp, rfl⟩, hne⟩
    exact ⟨p, ⟨hp, hne⟩, rfl⟩

theorem nodup_keys_aerase (k : String) (l : List (String × Nat))
    (h : (keysOf l).Nodup) : (keysOf (aerase k l)).Nodup :=
  h.sublist ((List.filter_sublist l).map Prod.fst)

theorem alookup_aset_self (k : String) (v : Nat) (l : List (String × Nat)) :
    alookup k (aset k v l) = some v := by
  induction l with
  | nil => simp [aset, alookup]
  | cons p rest ih =>
    by_cases h : p.1 = k
    · simp [aset, if_pos h, alookup]
    · simp [aset, if_neg h, alookup, h, ih]

theorem alookup_aset_ne (k q : String) (v : Nat) (l : List (String × Nat))
    (h : q ≠ k) : alookup q (aset k v l) = alookup q l := by
  induction l with
  | nil => simp [aset, alookup, Ne.symm h]
  | cons p rest ih =>
    by_cases hp : p.1 = k
    · subst hp
      have he : aset p.1 v (p :: rest) = (p.1, v) :: rest := by
        unfold aset; rw [if_pos rfl]
      rw [he]
      have hne : ¬ p.1 = q := fun hh => h hh.symm
      simp [alookup, hne]
    · have he : aset k v (p :: rest) = p :: aset k v rest := by
        simp only [aset, if_neg hp]
      rw [he]
      by_cases hq : p.1 = q
      · simp [alookup, hq]
      · simp [alookup, hq, ih]

theorem alookup_eq_none_iff (k : String) (l : List (String × Nat)) :
    alookup k l = none ↔ k ∉ keysOf l := by
  induction l with
  | nil => simp [alookup, keysOf]
  | cons p rest ih =>
    by_cases h : p.1 = k
    · simp [alookup, if_pos h, keysOf, h]
    · simp only [alookup, if_neg h, keysOf, List.map_cons, List.mem_cons]
      simp only [keysOf] at ih
      rw [ih]
      constructor
      · intro hnot hor
        rcases hor with h1 | h1
        · exact h h1.symm
        · exact hnot h1
      · intro hnot h1
        exact hnot (Or.inr h1)

theorem argminAccAux_mem (bk : String) (bv : Nat) (l : List (String × Nat)) :
    argminAccAux bk bv l = bk ∨ argminAccAux bk bv l ∈ keysOf l := by
  induction l generalizing bk bv with
  | nil => exact Or.inl rfl
  | cons p rest ih =>
    simp only [argminAccAux, keysOf, List.map_cons, List.mem_cons]
    split
    · rcases ih p.1 p.2 with h | h
      · exact Or.inr (Or.inl h)
      · simp only [keysOf] at h
        exact Or.inr (Or.inr h)
    · rcases ih bk bv with h | h
      · exact Or.inl h
      · simp only [keysOf] at h
        exact Or.inr (Or.inr h)

theorem argminAcc_mem (l : List (String × Nat)) (k : String)
    (h : argminAcc l = some k) : k ∈ keysOf l := by
  cases l with
  | nil => exact absurd h (by simp [argminAcc])
  | cons p rest =>
    simp only [argminAcc, Option.some.injEq] at h
    rcases argminAccAux_mem p.1 p.2 rest with h1 | h1
    · rw [← h, h1]
      simp [keysOf]
    · rw [← h]
      simp only [keysOf, List.map_cons, List.mem_cons]
      simp only [keysOf] at h1
      exact Or.inr h1

theorem argminAcc_isSome (l : List (String × Nat)) (h : l ≠ []) :
    ∃ k, argminAcc l = some k := by
  cases l with
  | nil => exact absurd rfl h
  | cons p rest => exact ⟨argminAccAux p.1 p.2 rest, rfl⟩

/-! ### Step characterization lemmas for the sink -/

theorem rotateLog_handles (d : String) (inp : WriteIn) (s : SinkState) :
    (rotateLog d inp s).handles = s.handles.erase d := by
  unfold rotateLog; split <;> rfl

theorem rotateLog_access (d : String) (inp : WriteIn) (s : SinkState) :
    (rotateLog d inp s).file_access = s.file_access := by
  unfold rotateLog; split <;> rfl

theorem rotateLog_buffers (d : String) (inp : WriteIn) (s : SinkState) :
    (rotateLog d inp s).buffers = s.buffers := by
  unfold rotateLog; split <;> rfl

theorem rotateLog_appends (d : String) (inp : WriteIn) (s : SinkState) :
    (rotateLog d inp s).appends = s.appends := by
  unfold rotateLog; split <;> rfl

theorem rotateLog_errors (d : String) (inp : WriteIn) (s : SinkState) :
    (rotateLog d inp s).errors = s.errors := by
  unfold rotateLog; split <;> rfl

theorem rotateLog_rotations (d : String) (inp : WriteIn) (s : SinkState) :
    (rotateLog d inp s).rotations = s.rotations + 1 := by
  unfold rotateLog; split <;> rfl

theorem rotateLog_sizes (d : String) (inp : WriteIn) (s : SinkState) :
    (rotateLog d inp s).file_sizes = aset d 0 s.file_sizes := by
  unfold rotateLog; split <;> rfl

theorem rotateIfNeeded_cases (cfg : SinkConfig) (d : String) (blen : Nat) (inp : WriteIn)
    (s : SinkState) :
    rotateIfNeeded cfg d blen inp s = s ∨
    rotateIfNeeded cfg d blen inp s = rotateLog d inp s := by
  unfold rotateIfNeeded
  split
  · exact Or.inl rfl
  · split
    · exact Or.inr rfl
    · exact Or.inl rfl

theorem rotateIfNeeded_pos (cfg : SinkConfig) (d : String) (blen : Nat) (inp : WriteIn)
    (s : SinkState) (sz : Nat) (hsz : alookup d s.liveFile = some sz)
    (hth : cfg.rotationSize ≤ sz + blen) :
    rotateIfNeeded cfg d blen inp s = rotateLog d inp s := by
  unfold rotateIfNeeded
  rw [hsz]
  exact if_pos hth

theorem rotateIfNeeded_rotations_of_ne (cfg : SinkConfig) (d : String) (blen : Nat)
    (inp : WriteIn) (s : SinkState) (sz : Nat) (hsz : alookup d s.liveFile = some sz)
    (hth : cfg.rotationSize ≤ sz + blen) :
    (rotateIfNeeded cfg d blen inp s).rotations = s.rotations + 1 := by
  rw [rotateIfNeeded_pos cfg d blen inp s sz hsz hth, rotateLog_rotations]

theorem closeOldest_live (s : SinkState) : (closeOldest s).liveFile = s.liveFile := by
  unfold closeOldest
  split
  · rfl
  · split <;> rfl

theorem closeOldest_rotated (s : SinkState) : (closeOldest s).rotated = s.rotated := by
  unfold closeOldest
  split
  · rfl
  · split <;> rfl

theorem closeOldest_rotations (s : SinkState) : (closeOldest s).rotations = s.rotations := by
  unfold closeOldest
  split
  · rfl
  · split <;> rfl

theorem closeOldest_sizes (s : SinkState) : (closeOldest s).file_sizes = s.file_sizes := by
  unfold closeOldest
  split
  · rfl
  · split <;> rfl

theorem closeOldest_appends (s : SinkState) : (closeOldest s).appends = s.appends := by
  unfold closeOldest
  split
  · rfl
  · split <;> rfl

theorem closeOldest_errors (s : SinkState) : (closeOldest s).errors = s.errors := by
  unfold closeOldest
  split
  · rfl
  · split <;> rfl

theorem closeOldest_buffers (s : SinkState) : (closeOldest s).buffers = s.buffers := by
  unfold closeOldest
  split
  · rfl
  · split <;> rfl

theorem closeOldest_handles_cases (s : SinkState) :
    (closeOldest s).handles = s.handles ∨
    ∃ k, (closeOldest s).handles = s.handles.erase k := by
  unfold closeOldest
  split
  · exact Or.inl rfl
  · split
    · exact Or.inl rfl
    · next k _ => exact Or.inr ⟨k, rfl⟩

theorem evictIfNeeded_cases (cfg : SinkConfig) (d : String) (s : SinkState) :
    evictIfNeeded cfg d s = closeOldest s ∨ evictIfNeeded cfg d s = s := by
  unfold evictIfNeeded
  split
  · exact Or.inl rfl
  · exact Or.inr rfl

theorem evictIfNeeded_pos (cfg : SinkConfig) (d : String) (s : SinkState)
    (h1 : cfg.maxFDs ≤ s.handles.length) (h2 : d ∉ s.handles) :
    evictIfNeeded cfg d s = closeOldest s := by
  unfold evictIfNeeded
  exact if_pos ⟨h1, h2⟩

theorem evictIfNeeded_neg (cfg : SinkConfig) (d : String) (s : SinkState)
    (h : ¬(cfg.maxFDs ≤ s.handles.length ∧ d ∉ s.handles)) :
    evictIfNeeded cfg d s = s := by
  unfold evictIfNeeded
  exact if_neg h

theorem evictIfNeeded_live (cfg : SinkConfig) (d : String) (s : SinkState) :
    (evictIfNeeded cfg d s).liveFile = s.liveFile := by
  rcases evictIfNeeded_cases cfg d s with h | h <;> rw [h]
  exact closeOldest_live s

theorem evictIfNeeded_rotated (cfg : SinkConfig) (d : String) (s : SinkState) :
    (evictIfNeeded cfg d s).rotated = s.rotated := by
  rcases evictIfNeeded_cases cfg d s with h | h <;> rw [h]
  exact closeOldest_rotated s

theorem evictIfNeeded_rotations (cfg : SinkConfig) (d : String) (s : SinkState) :
    (evictIfNeeded cfg d s).rotations = s.rotations := by
  rcases evictIfNeeded_cases cfg d s with h | h <;> rw [h]
  exact closeOldest_rotations s

theorem evictIfNeeded_sizes (cfg : SinkConfig) (d : String) (s : SinkState) :
    (evictIfNeeded cfg d s).file_sizes = s.file_sizes := by
  rcases evictIfNeeded_cases cfg d s with h | h <;> rw [h]
  exact closeOldest_sizes s

theorem evictIfNeeded_appends (cfg : SinkConfig) (d : String) (s : SinkState) :
    (evictIfNeeded cfg d s).appends = s.appends := by
  rcases evictIfNeeded_cases cfg d s with h | h <;> rw [h]
  exact closeOldest_appends s

theorem evictIfNeeded_errors (cfg : SinkConfig) (d : String) (s : SinkState) :
    (evictIfNeeded cfg d s).errors = s.errors := by
  rcases evictIfNeeded_cases cfg d s with h | h <;> rw [h]
  exact closeOldest_errors s

theorem evictIfNeeded_handles_cases (cfg : SinkConfig) (d : String) (s : SinkState) :
    (evictIfNeeded cfg d s).handles = s.handles ∨
    ∃ k, (evictIfNeeded cfg d s).handles = s.handles.erase k := by
  rcases evictIfNeeded_cases cfg d s with h | h <;> rw [h]
  · exact closeOldest_handles_cases s
  · exact Or.inl rfl

theorem openHandle_handles (d : String) (s : SinkState) :
    (openHandle d s).handles = s.handles ++ [d] := by
  unfold openHandle; split <;> rfl

theorem openHandle_access (d : String) (s : SinkState) :
    (openHandle d s).file_access = s.file_access := by
  unfold openHandle; split <;> rfl

theorem openHandle_buffers (d : String) (s : SinkState) :
    (openHandle d s).buffers = s.buffers := by
  unfold openHandle; split <;> rfl

theorem openHandle_appends (d : String) (s : SinkState) :
    (openHandle d s).appends = s.appends := by
  unfold openHandle; split <;> rfl

theorem openHandle_errors (d : String) (s : SinkState) :
    (openHandle d s).errors = s.errors := by
  unfold openHandle; split <;> rfl

theorem openHandle_rotated (d : String) (s : SinkState) :
    (openHandle d s).rotated = s.rotated := by
  unfold openHandle; split <;> rfl

theorem openHandle_rotations (d : String) (s : SinkState) :
    (openHandle d s).rotations = s.rotations := by
  unfold openHandle; split <;> rfl

theorem openIfNeeded_mem (d : String) (s : SinkState) (h : d ∈ s.handles) :
    openIfNeeded d s = s := by
  unfold openIfNeeded
  exact if_pos h

theorem openIfNeeded_not_mem (d : String) (s : SinkState) (h : d ∉ s.handles) :
    openIfNeeded d s = openHandle d s := by
  unfold openIfNeeded
  exact if_neg h

theorem openIfNeeded_self_mem (d : String) (s : SinkState) :
    d ∈ (openIfNeeded d s).handles := by
  by_cases h : d ∈ s.handles
  · rw [openIfNeeded_mem d s h]; exact h
  · rw [openIfNeeded_not_mem d s h, openHandle_handles]; simp

theorem openIfNeeded_rotated (d : String) (s : SinkState) :
    (openIfNeeded d s).rotated = s.rotated := by
  by_cases h : d ∈ s.handles
  · rw [openIfNeeded_mem d s h]
  · rw [openIfNeeded_not_mem d s h, openHandle_rotated]

theorem openIfNeeded_rotations (d : String) (s : SinkState) :
    (openIfNeeded d s).rotations = s.rotations := by
  by_cases h : d ∈ s.handles
  · rw [openIfNeeded_mem d s h]
  · rw [openIfNeeded_not_mem d s h, openHandle_rotations]

theorem openIfNeeded_appends (d : String) (s : SinkState) :
    (openIfNeeded d s).appends = s.appends := by
  by_cases h : d ∈ s.handles
  · rw [openIfNeeded_mem d s h]
  · rw [openIfNeeded_not_mem d s h, openHandle_appends]

theorem openIfNeeded_errors (d : String) (s : SinkState) :
    (openIfNeeded d s).errors = s.errors := by
  by_cases h : d ∈ s.handles
  · rw [openIfNeeded_mem d s h]
  · rw [openIfNeeded_not_mem d s h, openHandle_errors]

theorem doWrite_ok (d content : String) (inp : WriteIn) (s : SinkState)
    (h : inp.writeOk = true) :
    doWrite d content inp s =
      { s with
          liveFile := aset d ((alookup d s.liveFile).getD 0 + byteLen content) s.liveFile,
          file_sizes := aset d ((alookup d s.file_sizes).getD 0 + byteLen content) s.file_sizes,
          file_access := aset d inp.now s.file_access,
          logsWritten := s.logsWritten + 1,
          appends := s.appends ++ [(d, content)] } := by
  unfold doWrite
  exact if_pos h

theorem doWrite_fail (d content : String) (inp : WriteIn) (s : SinkState)
    (h : inp.writeOk = false) :
    doWrite d content inp s = { s with errors := s.errors + 1, handles := s.handles.erase d } := by
  unfold doWrite
  rw [if_neg (by rw [h]; exact Bool.false_ne_true)]

theorem nodup_append_singleton (l : List String) (d : String) (h : l.Nodup)
    (hm : d ∉ l) : (l ++ [d]).Nodup := by
  rw [List.nodup_append]
  refine ⟨h, List.nodup_singleton d, ?_⟩
  intro a ha hd
  rw [List.mem_singleton] at hd
  subst hd
  exact hm ha

theorem sink_tail_good (cfg : SinkConfig) (hcap : 1 ≤ cfg.maxFDs)
    (d content : String) (inp : WriteIn) (hok : inp.writeOk = true) (t : SinkState)
    (hnd : t.handles.Nodup) (hnda : (keysOf t.file_access).Nodup)
    (hbuf : t.buffers = [])
    (hlen : t.handles.length ≤ cfg.maxFDs)
    (hsub : ∀ x, x ∈ t.handles → x ∈ keysOf t.file_access)
    (hsup : ∀ x, x ∈ keysOf t.file_access → x ∈ t.handles ∨ x = d)
    (hcapfull : cfg.maxFDs ≤ t.handles.length →
      ∀ x, x ∈ keysOf t.file_access → x ∈ t.handles) :
    SinkGood cfg (doWrite d content inp (openIfNeeded d (evictIfNeeded cfg d t))) := by
  by_cases hmem : d ∈ t.handles
  · rw [evictIfNeeded_neg cfg d t (fun hand => hand.2 hmem),
        openIfNeeded_mem d t hmem, doWrite_ok d content inp t hok]
    refine ⟨hnd, nodup_keys_aset d inp.now t.file_access hnda, ?_, hlen, hbuf⟩
    intro x
    show x ∈ t.handles ↔ x ∈ keysOf (aset d inp.now t.file_access)
    rw [mem_keys_aset]
    constructor
    · intro hx
      exact Or.inl (hsub x hx)
    · rintro (hx | rfl)
      · rcases hsup x hx with h1 | rfl
        · exact h1
        · exact hmem
      · exact hmem
  · by_cases hfull : cfg.maxFDs ≤ t.handles.length
    · have hne : t.handles ≠ [] := by
        intro hh
        rw [hh] at hfull
        simp only [List.length_nil] at hfull
        omega
      have hacc_ne : t.file_access ≠ [] := by
        intro hh
        obtain ⟨x, hx⟩ := List.exists_mem_of_ne_nil t.handles hne
        have := hsub x hx
        rw [hh] at this
        simp [keysOf] at this
      obtain ⟨k, hk⟩ := argminAcc_isSome t.file_access hacc_ne
      have hkacc : k ∈ keysOf t.file_access := argminAcc_mem _ _ hk
      have hkh : k ∈ t.handles := hcapfull hfull k hkacc
      have hco : closeOldest t =
          { t with handles := t.handles.erase k, file_access := aerase k t.file_access } := by
        unfold closeOldest
        rw [if_neg hne, hk]
      rw [evictIfNeeded_pos cfg d t hfull hmem, hco]
      have hmem2 : d ∉ t.handles.erase k := fun hx => hmem (List.mem_of_mem_erase hx)
      rw [openIfNeeded_not_mem d _ hmem2]
      rw [doWrite_ok _ _ _ _ hok]
      have hlp : 0 < t.handles.length := List.length_pos.mpr hne
      have hler : (t.handles.erase k).length = t.handles.length - 1 :=
        List.length_erase_of_mem hkh
      refine ⟨?_, ?_, ?_, ?_, ?_⟩
      · show ((openHandle d _).handles).Nodup
        rw [openHandle_handles]
        exact nodup_append_singleton _ d (hnd.erase k) hmem2
      · show (keysOf (aset d inp.now (openHandle d _).file_access)).Nodup
        rw [openHandle_access]
        exact nodup_keys_aset _ _ _ (nodup_keys_aerase k t.file_access hnda)
      · intro x
        show x ∈ (openHandle d _).handles ↔
          x ∈ keysOf (aset d inp.now (openHandle d _).file_access)
        rw [openHandle_handles, openHandle_access]
        show x ∈ t.handles.erase k ++ [d] ↔ _
        rw [List.mem_append, List.mem_singleton, mem_keys_aset, mem_keys_aerase,
          hnd.mem_erase_iff]
        have hx1 : x ∈ t.handles ↔ x ∈ keysOf t.file_access :=
          ⟨hsub x, hcapfull hfull x⟩
        tauto
      · show ((openHandle d _).handles).length ≤ cfg.maxFDs
        rw [openHandle_handles]
        show (t.handles.erase k ++ [d]).length ≤ cfg.maxFDs
        rw [List.length_append, hler]
        simp only [List.length_singleton]
        omega
      · show (openHandle d _).buffers = []
        rw [openHandle_buffers]
        exact hbuf
    · rw [evictIfNeeded_neg cfg d t (fun hand => hfull hand.1),
          openIfNeeded_not_mem d t hmem, doWrite_ok _ _ _ _ hok]
      refine ⟨?_, ?_, ?_, ?_, ?_⟩
      · show ((openHandle d t).handles).Nodup
        rw [openHandle_handles]
        exact nodup_append_singleton _ d hnd hmem
      · show (keysOf (aset d inp.now (openHandle d t).file_access)).Nodup
        rw [openHandle_access]
        exact nodup_keys_aset _ _ _ hnda
      · intro x
        show x ∈ (openHandle d t).handles ↔
          x ∈ keysOf (aset d inp.now (openHandle d t).file_access)
        rw [openHandle_handles, openHandle_access]
        rw [List.mem_append, List.mem_singleton, mem_keys_aset]
        constructor
        · rintro (hx | rfl)
          · exact Or.inl (hsub x hx)
          · exact Or.inr rfl
        · rintro (hx | rfl)
          · rcases hsup x hx with h1 | rfl
            · exact Or.inl h1
            · exact Or.inr rfl
          · exact Or.inr rfl
      · show ((openHandle d t).handles).length ≤ cfg.maxFDs
        rw [openHandle_handles, List.length_append]
        simp only [List.length_singleton]
        omega
      · show (openHandle d t).buffers = []
        rw [openHandle_buffers]
        exact hbuf

theorem write_ok_preserves (cfg : SinkConfig) (hcap : 1 ≤ cfg.maxFDs)
    (dom content : String) (inp : WriteIn) (hok : inp.writeOk = true)
    (s : SinkState) (hg : SinkGood cfg s) :
    SinkGood cfg (write_to_file cfg dom content inp s) := by
  obtain ⟨hnd, hnda, hkeys, hcard, hbuf⟩ := hg
  unfold write_to_file
  rcases rotateIfNeeded_cases cfg (sanitizeDomain dom) (byteLen content) inp s with
    hrot | hrot <;> rw [hrot]
  · exact sink_tail_good cfg hcap _ content inp hok s hnd hnda hbuf hcard
      (fun x hx => (hkeys x).mp hx)
      (fun x hx => Or.inl ((hkeys x).mpr hx))
      (fun _ x hx => (hkeys x).mpr hx)
  · refine sink_tail_good cfg hcap _ content inp hok
      (rotateLog (sanitizeDomain dom) inp s) ?_ ?_ ?_ ?_ ?_ ?_ ?_
    · rw [rotateLog_handles]
      exact hnd.erase _
    · rw [rotateLog_access]
      exact hnda
    · rw [rotateLog_buffers]
      exact hbuf
    · rw [rotateLog_handles]
      exact le_trans (List.erase_sublist _ _).length_le hcard
    · intro x hx
      rw [rotateLog_handles] at hx
      rw [rotateLog_access]
      exact (hkeys x).mp (List.mem_of_mem_erase hx)
    · intro x hx
      rw [rotateLog_access] at hx
      rw [rotateLog_handles]
      by_cases hxd : x = sanitizeDomain dom
      · exact Or.inr hxd
      · exact Or.inl (hnd.mem_erase_iff.mpr ⟨hxd, (hkeys x).mpr hx⟩)
    · intro hfull x hx
      rw [rotateLog_handles] at hfull ⊢
      rw [rotateLog_access] at hx
      by_cases hdm : sanitizeDomain dom ∈ s.handles
      · exfalso
        have h1 : (s.handles.erase (sanitizeDomain dom)).length = s.handles.length - 1 :=
          List.length_erase_of_mem hdm
        have h2 : 0 < s.handles.length := List.length_pos.mpr (List.ne_nil_of_mem hdm)
        omega
      · rw [List.erase_of_not_mem hdm]
        exact (hkeys x).mpr hx

theorem flush_preserves (cfg : SinkConfig) (inp : WriteIn) (s : SinkState)
    (hg : SinkGood cfg s) : SinkGood cfg (flush_buffers cfg inp s) := by
  obtain ⟨hnd, hnda, hkeys, hcard, hbuf⟩ := hg
  simp only [flush_buffers, hbuf, List.foldl_nil, List.map_nil]
  exact ⟨hnd, hnda, hkeys, hcard, rfl⟩

theorem flush_buffers_buf (cfg : SinkConfig) (inp : WriteIn) (s : SinkState)
    (h : s.buffers = []) : (flush_buffers cfg inp s).buffers = [] := by
  simp only [flush_buffers, h, List.foldl_nil, List.map_nil]

theorem close_preserves (cfg : SinkConfig) (inp : WriteIn) (s : SinkState)
    (hg : SinkGood cfg s) : SinkGood cfg (close_all cfg inp s) := by
  obtain ⟨hnd, hnda, hkeys, hcard, hbuf⟩ := hg
  refine ⟨?_, ?_, ?_, ?_, ?_⟩
  · show ([] : List String).Nodup
    exact List.nodup_nil
  · show (keysOf []).Nodup
    simp [keysOf]
  · intro x
    show x ∈ ([] : List String) ↔ x ∈ keysOf []
    simp [keysOf]
  · show ([] : List String).length ≤ cfg.maxFDs
    simp
  · show (flush_buffers cfg inp { s with running := false }).buffers = []
    exact flush_buffers_buf cfg inp _ hbuf

theorem sinkGood_init (cfg : SinkConfig) : SinkGood cfg initSink := by
  refine ⟨List.nodup_nil, ?_, ?_, ?_, rfl⟩
  · simp [initSink, keysOf]
  · intro x
    simp [initSink, keysOf]
  · simp [initSink]

theorem foldl_sink_good (cfg : SinkConfig) (hcap : 1 ≤ cfg.maxFDs) :
    ∀ (ops : List SinkOp) (s : SinkState),
    (∀ op ∈ ops, sinkOpOk op = true) → SinkGood cfg s →
    SinkGood cfg (ops.foldl (applySinkOp cfg) s)
  | [], _, _, hs => hs
  | op :: rest, s, hops, hs => by
    have h1 : SinkGood cfg (applySinkOp cfg s op) := by
      cases op with
      | write d c inp =>
        have hw : sinkOpOk (SinkOp.write d c inp) = true :=
          hops (SinkOp.write d c inp) (List.mem_cons_self _ _)
        exact write_ok_preserves cfg hcap d c inp hw s hs
      | flush inp => exact flush_preserves cfg inp s hs
      | closeEverything inp => exact close_preserves cfg inp s hs
    exact foldl_sink_good cfg hcap rest (applySinkOp cfg s op)
      (fun o ho => hops o (List.mem_cons_of_mem _ ho)) h1

theorem runSinkOps_good (cfg : SinkConfig) (hcap : 1 ≤ cfg.maxFDs) (ops : List SinkOp)
    (hops : ∀ op ∈ ops, sinkOpOk op = true) : SinkGood cfg (runSinkOps cfg ops) :=
  foldl_sink_good cfg hcap ops initSink hops (sinkGood_init cfg)

/-! ### Claim C1 -/

/-- C1 counterexample: with cap 1, after a failed write to partition a (the
except branch of _write_to_file discards the handle but not the file_access
entry), the stale access entry makes _close_oldest_file evict the phantom
partition a instead of the open partition b, so opening c leaves two open
handles, exceeding the cap. -/
theorem c1_counterexample :
    cfgC1.maxFDs = 1 ∧
    (∃ op ∈ opsC1, sinkOpOk op = false) ∧
    (runSinkOps cfgC1 opsC1).handles = ["b", "c"] ∧
    cfgC1.maxFDs < (runSinkOps cfgC1 opsC1).handles.length := by
  refine ⟨rfl, ?_, by decide, by decide⟩
  exact ⟨SinkOp.write "a" "x" ⟨2, false, true⟩, by decide, rfl⟩

/-- C1 amended: over every sequence of operations in which every write
succeeds (no I/O errors) and for a positive cap, the number of open handles
never exceeds the cap; and whenever a successful write for a not-yet-open
partition arrives with the cap reached, exactly the open partition holding
the oldest last-access timestamp is closed before the new handle is
opened. -/
theorem c1_amended (cfg : SinkConfig) (hcap : 1 ≤ cfg.maxFDs) (ops : List SinkOp)
    (hops : ∀ op ∈ ops, sinkOpOk op = true) :
    (runSinkOps cfg ops).handles.length ≤ cfg.maxFDs ∧
    (∀ (dom content : String) (inp : WriteIn), inp.writeOk = true →
      (runSinkOps cfg ops).handles.length = cfg.maxFDs →
      sanitizeDomain dom ∉ (runSinkOps cfg ops).handles →
      ∃ k, argminAcc (runSinkOps cfg ops).file_access = some k ∧
        k ∈ (runSinkOps cfg ops).handles ∧
        (write_to_file cfg dom content inp (runSinkOps cfg ops)).handles =
          ((runSinkOps cfg ops).handles.erase k) ++ [sanitizeDomain dom]) := by
  have good := runSinkOps_good cfg hcap ops hops
  refine ⟨good.card, ?_⟩
  intro dom content inp hok hfull hmem
  have hne : (runSinkOps cfg ops).handles ≠ [] := by
    intro hh
    rw [hh] at hfull
    simp only [List.length_nil] at hfull
    omega
  have hacc_ne : (runSinkOps cfg ops).file_access ≠ [] := by
    intro hh
    obtain ⟨x, hx⟩ := List.exists_mem_of_ne_nil _ hne
    have := (good.keys x).mp hx
    rw [hh] at this
    simp [keysOf] at this
  obtain ⟨k, hk⟩ := argminAcc_isSome _ hacc_ne
  have hkh : k ∈ (runSinkOps cfg ops).handles := (good.keys k).mpr (argminAcc_mem _ _ hk)
  refine ⟨k, hk, hkh, ?_⟩
  unfold write_to_file
  have ht1 : (rotateIfNeeded cfg (sanitizeDomain dom) (byteLen content) inp
      (runSinkOps cfg ops)).handles = (runSinkOps cfg ops).handles := by
    rcases rotateIfNeeded_cases cfg (sanitizeDomain dom) (byteLen content) inp
      (runSinkOps cfg ops) with h | h <;> rw [h]
    rw [rotateLog_handles]
    exact List.erase_of_not_mem hmem
  have ht2 : (rotateIfNeeded cfg (sanitizeDomain dom) (byteLen content) inp
      (runSinkOps cfg ops)).file_access = (runSinkOps cfg ops).file_access := by
    rcases rotateIfNeeded_cases cfg (sanitizeDomain dom) (byteLen content) inp
      (runSinkOps cfg ops) with h | h <;> rw [h]
    exact rotateLog_access _ _ _
  set t := rotateIfNeeded cfg (sanitizeDomain dom) (byteLen content) inp
    (runSinkOps cfg ops) with hts
  have hev : evictIfNeeded cfg (sanitizeDomain dom) t =
      { t with handles := t.handles.erase k, file_access := aerase k t.file_access } := by
    rw [evictIfNeeded_pos cfg _ t (by rw [ht1]; exact hfull.ge) (by rw [ht1]; exact hmem)]
    unfold closeOldest
    rw [if_neg (by rw [ht1]; exact hne), ht2, hk]
  rw [hev]
  have hm2 : sanitizeDomain dom ∉ t.handles.erase k := by
    intro hx
    apply hmem
    rw [← ht1]
    exact List.mem_of_mem_erase hx
  rw [openIfNeeded_not_mem _ _ hm2, doWrite_ok _ _ _ _ hok]
  show (openHandle (sanitizeDomain dom) _).handles = _
  rw [openHandle_handles]
  show t.handles.erase k ++ [sanitizeDomain dom] = _
  rw [ht1]

/-- C1 witness: with cap 2 and two successful writes the amended theorem
applies; both conjuncts are obtained at this concrete run. -/
theorem c1_witness :
    (runSinkOps cfgC1w opsC1w).handles.length ≤ cfgC1w.maxFDs ∧
    (∀ (dom content : String) (inp : WriteIn), inp.writeOk = true →
      (runSinkOps cfgC1w opsC1w).handles.length = cfgC1w.maxFDs →
      sanitizeDomain dom ∉ (runSinkOps cfgC1w opsC1w).handles →
      ∃ k, argminAcc (runSinkOps cfgC1w opsC1w).file_access = some k ∧
        k ∈ (runSinkOps cfgC1w opsC1w).handles ∧
        (write_to_file cfgC1w dom content inp (runSinkOps cfgC1w opsC1w)).handles =
          ((runSinkOps cfgC1w opsC1w).handles.erase k) ++ [sanitizeDomain dom]) :=
  c1_amended cfgC1w (by decide) opsC1w (by decide)

/-! ### Claim C2 -/

theorem alookup_aerase_self (k : String) (l : List (String × Nat)) :
    alookup k (aerase k l) = none := by
  rw [alookup_eq_none_iff]
  intro h
  exact ((mem_keys_aerase k k l).mp h).2 rfl

theorem openHandle_of_absent (d : String) (s : SinkState)
    (h : alookup d s.liveFile = none) :
    openHandle d s =
      { s with liveFile := aset d 0 s.liveFile,
               handles := s.handles ++ [d],
               file_sizes := aset d 0 s.file_sizes } := by
  unfold openHandle
  rw [h]

theorem doWrite_rotations (d content : String) (inp : WriteIn) (s : SinkState) :
    (doWrite d content inp s).rotations = s.rotations := by
  unfold doWrite
  split <;> rfl

theorem doWrite_rotated (d content : String) (inp : WriteIn) (s : SinkState) :
    (doWrite d content inp s).rotated = s.rotated := by
  unfold doWrite
  split <;> rfl

/-- C2 counterexample: the rotation check runs only when the live file
already exists, so a partition's very first write may create a live file
whose size is already at or above the threshold without any rotation
being performed. -/
theorem c2_counterexample :
    alookup "a" initSink.liveFile = none ∧
    (write_to_file cfgC2 "a" "hello" ⟨1, true, true⟩ initSink).rotations = 0 ∧
    (write_to_file cfgC2 "a" "hello" ⟨1, true, true⟩ initSink).rotated = [] ∧
    alookup "a" (write_to_file cfgC2 "a" "hello" ⟨1, true, true⟩ initSink).liveFile = some 5 ∧
    cfgC2.rotationSize ≤ 5 := by
  refine ⟨rfl, by decide, by decide, by decide, by decide⟩

/-- C2 amended: for every partition whose live file exists, if appending
the content would bring the on-disk size at or above the threshold then
rotation is performed before the write: the file is closed and renamed to
the timestamped name (when the rename call succeeds) and the size counter
is reset to zero before the content is appended, so the counter and the
fresh live file both end at exactly the content's byte length; and
conversely a call that performs no rotation while the live file exists
only ever appends content keeping the resulting size strictly below the
threshold.  A partition's very first write is exempt: with no live file on
disk no rotation can be triggered. -/
theorem c2_amended (cfg : SinkConfig) (s : SinkState) (dom content : String)
    (inp : WriteIn) :
    (inp.writeOk = true → inp.renameOk = true →
      ∀ sz, alookup (sanitizeDomain dom) s.liveFile = some sz →
      cfg.rotationSize ≤ sz + byteLen content →
      (write_to_file cfg dom content inp s).rotated =
        s.rotated ++ [(sanitizeDomain dom, inp.now)] ∧
      alookup (sanitizeDomain dom) (write_to_file cfg dom content inp s).file_sizes =
        some (byteLen content) ∧
      alookup (sanitizeDomain dom) (write_to_file cfg dom content inp s).liveFile =
        some (byteLen content)) ∧
    (∀ sz, alookup (sanitizeDomain dom) s.liveFile = some sz →
      (write_to_file cfg dom content inp s).rotations = s.rotations →
      sz + byteLen content < cfg.rotationSize) := by
  constructor
  · intro hok hrn sz hsz hth
    unfold write_to_file
    rw [rotateIfNeeded_pos cfg (sanitizeDomain dom) (byteLen content) inp s sz hsz hth]
    have hRL : rotateLog (sanitizeDomain dom) inp s =
        { s with handles := s.handles.erase (sanitizeDomain dom),
                 liveFile := aerase (sanitizeDomain dom) s.liveFile,
                 rotated := s.rotated ++ [(sanitizeDomain dom, inp.now)],
                 rotations := s.rotations + 1,
                 file_sizes := aset (sanitizeDomain dom) 0 s.file_sizes } := by
      unfold rotateLog
      rw [if_pos hrn]
    rw [hRL]
    set u : SinkState :=
      { s with handles := s.handles.erase (sanitizeDomain dom),
               liveFile := aerase (sanitizeDomain dom) s.liveFile,
               rotated := s.rotated ++ [(sanitizeDomain dom, inp.now)],
               rotations := s.rotations + 1,
               file_sizes := aset (sanitizeDomain dom) 0 s.file_sizes } with hu
    set e := evictIfNeeded cfg (sanitizeDomain dom) u with he
    have heL : e.liveFile = aerase (sanitizeDomain dom) s.liveFile := by
      rw [he, evictIfNeeded_live]
    have heS : e.file_sizes = aset (sanitizeDomain dom) 0 s.file_sizes := by
      rw [he, evictIfNeeded_sizes]
    have heR : e.rotated = s.rotated ++ [(sanitizeDomain dom, inp.now)] := by
      rw [he, evictIfNeeded_rotated]
    set o := openIfNeeded (sanitizeDomain dom) e with ho
    have hOsz : alookup (sanitizeDomain dom) o.file_sizes = some 0 := by
      rw [ho]
      by_cases hm : sanitizeDomain dom ∈ e.handles
      · rw [openIfNeeded_mem _ _ hm, heS, alookup_aset_self]
      · rw [openIfNeeded_not_mem _ _ hm,
          openHandle_of_absent _ _ (by rw [heL]; exact alookup_aerase_self _ _)]
        show alookup (sanitizeDomain dom) (aset (sanitizeDomain dom) 0 e.file_sizes) = some 0
        rw [alookup_aset_self]
    have hOlv : (alookup (sanitizeDomain dom) o.liveFile).getD 0 = 0 := by
      rw [ho]
      by_cases hm : sanitizeDomain dom ∈ e.handles
      · rw [openIfNeeded_mem _ _ hm, heL, alookup_aerase_self]
        rfl
      · rw [openIfNeeded_not_mem _ _ hm,
          openHandle_of_absent _ _ (by rw [heL]; exact alookup_aerase_self _ _)]
        show (alookup (sanitizeDomain dom) (aset (sanitizeDomain dom) 0 e.liveFile)).getD 0 = 0
        rw [alookup_aset_self]
        rfl
    have hOr : o.rotated = s.rotated ++ [(sanitizeDomain dom, inp.now)] := by
      rw [ho, openIfNeeded_rotated, heR]
    rw [doWrite_ok _ _ _ _ hok]
    refine ⟨hOr, ?_, ?_⟩
    · show alookup (sanitizeDomain dom)
        (aset (sanitizeDomain dom)
          ((alookup (sanitizeDomain dom) o.file_sizes).getD 0 + byteLen content)
          o.file_sizes) = some (byteLen content)
      rw [alookup_aset_self, hOsz]
      simp
    · show alookup (sanitizeDomain dom)
        (aset (sanitizeDomain dom)
          ((alookup (sanitizeDomain dom) o.liveFile).getD 0 + byteLen content)
          o.liveFile) = some (byteLen content)
      rw [alookup_aset_self, hOlv]
      simp
  · intro sz hsz hrots
    by_contra hge
    have hth : cfg.rotationSize ≤ sz + byteLen content := by omega
    have : (write_to_file cfg dom content inp s).rotations = s.rotations + 1 := by
      unfold write_to_file
      rw [rotateIfNeeded_pos cfg (sanitizeDomain dom) (byteLen content) inp s sz hsz hth,
        doWrite_rotations, openIfNeeded_rotations, evictIfNeeded_rotations,
        rotateLog_rotations]
    omega

/-- C2 witness: with threshold 4 and a live file of 3 bytes, a 2-byte write
rotates first (rotated trace grows, counter and live file reset to the
content length), and a 0-byte write below the threshold performs no
rotation and the bound holds. -/
theorem c2_witness :
    ((write_to_file cfgC2 "a" "xy" ⟨2, true, true⟩ c2s0).rotated =
        c2s0.rotated ++ [(sanitizeDomain "a", 2)] ∧
      alookup (sanitizeDomain "a")
        (write_to_file cfgC2 "a" "xy" ⟨2, true, true⟩ c2s0).file_sizes =
        some (byteLen "xy") ∧
      alookup (sanitizeDomain "a")
        (write_to_file cfgC2 "a" "xy" ⟨2, true, true⟩ c2s0).liveFile =
        some (byteLen "xy")) ∧
    (3 + byteLen "" < cfgC2.rotationSize) :=
  ⟨(c2_amended cfgC2 c2s0 "a" "xy" ⟨2, true, true⟩).1 rfl rfl 3 (by decide) (by decide),
   (c2_amended cfgC2 c2s0 "a" "" ⟨3, true, true⟩).2 3 (by decide) (by decide)⟩

/-! ### Claim C8 -/

theorem close_all_of_empty_buffers (cfg : SinkConfig) (inp : WriteIn) (s : SinkState)
    (hbuf : s.buffers = []) :
    close_all cfg inp s =
      { s with running := false, buffers := [], domainsCount := s.handles.length,
               handles := [], file_access := [] } := by
  simp only [close_all, flush_buffers, hbuf, List.foldl_nil, List.map_nil]

/-- C8 counterexample: close_all sets the running flag to false, but
write_log never consults that flag, so a write arriving after close_all is
accepted: it reopens a handle and appends its line.  The claimed
"accepts no further writes" does not hold. -/
theorem c8_counterexample :
    c8s2.running = false ∧
    c8s3.appends = c8s2.appends ++ [("a", "[t3] again\n")] ∧
    c8s3.handles = ["a"] ∧
    c8s3.logsWritten = c8s2.logsWritten + 1 := by
  refine ⟨by decide, by decide, by decide, by decide⟩

/-- C8 amended: close_all flushes the buffers (always empty in any
reachable state) and closes every open handle, clearing the handle and
access tables, and marks the running flag false; a second call produces no
error and no duplicate writes (the error counter and the append trace are
unchanged).  The running flag is however never consulted by the write
path, so the sink still accepts writes afterwards. -/
theorem c8_amended (cfg : SinkConfig) (inp1 inp2 : WriteIn) (s : SinkState)
    (hbuf : s.buffers = []) :
    (close_all cfg inp1 s).running = false ∧
    (close_all cfg inp1 s).handles = [] ∧
    (close_all cfg inp1 s).file_access = [] ∧
    (close_all cfg inp1 s).appends = s.appends ∧
    (close_all cfg inp1 s).errors = s.errors ∧
    (close_all cfg inp2 (close_all cfg inp1 s)).appends = (close_all cfg inp1 s).appends ∧
    (close_all cfg inp2 (close_all cfg inp1 s)).errors = (close_all cfg inp1 s).errors ∧
    (close_all cfg inp2 (close_all cfg inp1 s)).handles = [] ∧
    (close_all cfg inp2 (close_all cfg inp1 s)).running = false := by
  have h1 := close_all_of_empty_buffers cfg inp1 s hbuf
  have hb1 : (close_all cfg inp1 s).buffers = [] := by rw [h1]
  have h2 := close_all_of_empty_buffers cfg inp2 _ hb1
  refine ⟨by rw [h1], by rw [h1], by rw [h1], by rw [h1], by rw [h1], ?_, ?_, ?_, ?_⟩
  · rw [h2]
  · rw [h2]
  · rw [h2]
  · rw [h2]

/-- C8 witness: the amended theorem applied to the concrete state holding
one open handle after one write. -/
theorem c8_witness :
    (close_all cfgC8 ⟨2, true, true⟩ c8s1).running = false ∧
    (close_all cfgC8 ⟨2, true, true⟩ c8s1).handles = [] ∧
    (close_all cfgC8 ⟨2, true, true⟩ c8s1).file_access = [] ∧
    (close_all cfgC8 ⟨2, true, true⟩ c8s1).appends = c8s1.appends ∧
    (close_all cfgC8 ⟨2, true, true⟩ c8s1).errors = c8s1.errors ∧
    (close_all cfgC8 ⟨4, true, true⟩ (close_all cfgC8 ⟨2, true, true⟩ c8s1)).appends =
      (close_all cfgC8 ⟨2, true, true⟩ c8s1).appends ∧
    (close_all cfgC8 ⟨4, true, true⟩ (close_all cfgC8 ⟨2, true, true⟩ c8s1)).errors =
      (close_all cfgC8 ⟨2, true, true⟩ c8s1).errors ∧
    (close_all cfgC8 ⟨4, true, true⟩ (close_all cfgC8 ⟨2, true, true⟩ c8s1)).handles = [] ∧
    (close_all cfgC8 ⟨4, true, true⟩ (close_all cfgC8 ⟨2, true, true⟩ c8s1)).running = false :=
  c8_amended cfgC8 ⟨2, true, true⟩ ⟨4, true, true⟩ c8s1 (by decide)

/-! ### Claim C9 -/

theorem rotateIfNeeded_appends (cfg : SinkConfig) (d : String) (blen : Nat)
    (inp : WriteIn) (s : SinkState) :
    (rotateIfNeeded cfg d blen inp s).appends = s.appends := by
  rcases rotateIfNeeded_cases cfg d blen inp s with h | h <;> rw [h]
  exact rotateLog_appends _ _ _

theorem rotateIfNeeded_errors (cfg : SinkConfig) (d : String) (blen : Nat)
    (inp : WriteIn) (s : SinkState) :
    (rotateIfNeeded cfg d blen inp s).errors = s.errors := by
  rcases rotateIfNeeded_cases cfg d blen inp s with h | h <;> rw [h]
  exact rotateLog_errors _ _ _

theorem phases_nodup (cfg : SinkConfig) (d : String) (blen : Nat) (inp : WriteIn)
    (s : SinkState) (h : s.handles.Nodup) :
    (openIfNeeded d (evictIfNeeded cfg d (rotateIfNeeded cfg d blen inp s))).handles.Nodup := by
  have h1 : (rotateIfNeeded cfg d blen inp s).handles.Nodup := by
    rcases rotateIfNeeded_cases cfg d blen inp s with hr | hr <;> rw [hr]
    · exact h
    · rw [rotateLog_handles]
      exact h.erase _
  have h2 : (evictIfNeeded cfg d (rotateIfNeeded cfg d blen inp s)).handles.Nodup := by
    rcases evictIfNeeded_handles_cases cfg d (rotateIfNeeded cfg d blen inp s) with
      he | ⟨k, he⟩ <;> rw [he]
    · exact h1
    · exact h1.erase k
  by_cases hm : d ∈ (evictIfNeeded cfg d (rotateIfNeeded cfg d blen inp s)).handles
  · rw [openIfNeeded_mem _ _ hm]
    exact h2
  · rw [openIfNeeded_not_mem _ _ hm, openHandle_handles]
    exact nodup_append_singleton _ d h2 hm

/-- C9: an I/O error during a write increments the error counter, closes
and discards the partition's handle, and produces no append; the failure
never escapes (_write_to_file catches it, which the embedding renders by
totality); and the next write for the same partition transparently reopens
a fresh handle and succeeds, appending its content without further
errors. -/
theorem c9_error_recovery (cfg : SinkConfig) (s : SinkState) (dom c1 c2 : String)
    (inp1 inp2 : WriteIn) (hnd : s.handles.Nodup)
    (hf : inp1.writeOk = false) (hok : inp2.writeOk = true) :
    (write_to_file cfg dom c1 inp1 s).errors = s.errors + 1 ∧
    sanitizeDomain dom ∉ (write_to_file cfg dom c1 inp1 s).handles ∧
    (write_to_file cfg dom c1 inp1 s).appends = s.appends ∧
    sanitizeDomain dom ∈
      (write_to_file cfg dom c2 inp2 (write_to_file cfg dom c1 inp1 s)).handles ∧
    (write_to_file cfg dom c2 inp2 (write_to_file cfg dom c1 inp1 s)).appends =
      s.appends ++ [(sanitizeDomain dom, c2)] ∧
    (write_to_file cfg dom c2 inp2 (write_to_file cfg dom c1 inp1 s)).errors =
      (write_to_file cfg dom c1 inp1 s).errors := by
  unfold write_to_file
  set X := openIfNeeded (sanitizeDomain dom) (evictIfNeeded cfg (sanitizeDomain dom)
    (rotateIfNeeded cfg (sanitizeDomain dom) (byteLen c1) inp1 s)) with hX
  have hXnd : X.handles.Nodup := phases_nodup cfg _ _ inp1 s hnd
  have hXapp : X.appends = s.appends := by
    rw [hX, openIfNeeded_appends, evictIfNeeded_appends, rotateIfNeeded_appends]
  have hXerr : X.errors = s.errors := by
    rw [hX, openIfNeeded_errors, evictIfNeeded_errors, rotateIfNeeded_errors]
  rw [doWrite_fail _ _ _ _ hf]
  refine ⟨?_, ?_, ?_, ?_, ?_, ?_⟩
  · show X.errors + 1 = s.errors + 1
    rw [hXerr]
  · show sanitizeDomain dom ∉ X.handles.erase (sanitizeDomain dom)
    intro hx
    exact ((hXnd.mem_erase_iff).mp hx).1 rfl
  · exact hXapp
  · rw [doWrite_ok _ _ _ _ hok]
    exact openIfNeeded_self_mem _ _
  · rw [doWrite_ok _ _ _ _ hok]
    show (openIfNeeded _ (evictIfNeeded _ _ (rotateIfNeeded _ _ _ inp2 _))).appends ++
        [(sanitizeDomain dom, c2)] = s.appends ++ [(sanitizeDomain dom, c2)]
    rw [openIfNeeded_appends, evictIfNeeded_appends, rotateIfNeeded_appends]
    show X.appends ++ [(sanitizeDomain dom, c2)] = s.appends ++ [(sanitizeDomain dom, c2)]
    rw [hXapp]
  · rw [doWrite_ok _ _ _ _ hok]
    show (openIfNeeded _ (evictIfNeeded _ _ (rotateIfNeeded _ _ _ inp2 _))).errors =
      X.errors + 1
    rw [openIfNeeded_errors, evictIfNeeded_errors, rotateIfNeeded_errors]

/-- C9 witness: a failing write to a fresh partition followed by a
successful one, from the initial state. -/
theorem c9_witness :
    (write_to_file cfgC9 "a" "x" ⟨1, false, true⟩ initSink).errors = initSink.errors + 1 ∧
    sanitizeDomain "a" ∉ (write_to_file cfgC9 "a" "x" ⟨1, false, true⟩ initSink).handles ∧
    (write_to_file cfgC9 "a" "x" ⟨1, false, true⟩ initSink).appends = initSink.appends ∧
    sanitizeDomain "a" ∈ (write_to_file cfgC9 "a" "y" ⟨2, true, true⟩
      (write_to_file cfgC9 "a" "x" ⟨1, false, true⟩ initSink)).handles ∧
    (write_to_file cfgC9 "a" "y" ⟨2, true, true⟩
      (write_to_file cfgC9 "a" "x" ⟨1, false, true⟩ initSink)).appends =
      initSink.appends ++ [(sanitizeDomain "a", "y")] ∧
    (write_to_file cfgC9 "a" "y" ⟨2, true, true⟩
      (write_to_file cfgC9 "a" "x" ⟨1, false, true⟩ initSink)).errors =
      (write_to_file cfgC9 "a" "x" ⟨1, false, true⟩ initSink).errors :=
  c9_error_recovery cfgC9 initSink "a" "x" "y" ⟨1, false, true⟩ ⟨2, true, true⟩
    List.nodup_nil rfl rfl

/-- A deque append always retains the element just appended when the
capacity is at least one. -/
theorem mem_dequeAppend (N : Nat) (hN : 1 ≤ N) (x : String) (l : List String) :
    x ∈ dequeAppend N x l := by
  unfold dequeAppend
  split
  · have hle : (l ++ [x]).length - N ≤ l.length := by
      simp [List.length_append]; omega
    rw [List.drop_append_of_le_length hle]
    exact List.mem_append_right _ (List.mem_singleton.mpr rfl)
  · exact List.mem_append_right _ (List.mem_singleton.mpr rfl)

/-- A deduplication key is never the empty string: it always contains the
separator bar. -/
theorem eventIdOf_ne_empty (ev : Event) (i : String) (h : eventIdOf ev = some i) :
    i ≠ "" := by
  have key : ∀ a b : String, a ++ "|" ++ b = "" → False := by
    intro a b hc
    have hlen := congrArg String.length hc
    simp [String.length_append] at hlen
    exact absurd hlen.1.2 (by decide)
  simp only [eventIdOf] at h
  split at h
  · exact Option.noConfusion h
  · split at h
    · exact Option.noConfusion h
    · split at h
      · have hinj := Option.some.inj h
        intro hie; rw [hie] at hinj; exact key _ _ hinj
      · split at h
        · exact Option.noConfusion h
        · have hinj := Option.some.inj h
          intro hie; rw [hie] at hinj; exact key _ _ hinj

/-- C6: refuted as stated.  A fresh HEARTBEAT event has a deduplication key,
is not a duplicate (the recency window is empty), yet the collector drops it
without classifying or writing anything, contradicting the claim that every
non-duplicate event is classified and written. -/
theorem c6_counterexample :
    eventIdOf evHeartbeat = some "HEARTBEAT|hb-1" ∧
    "HEARTBEAT|hb-1" ∉ ([] : List String) ∧
    (process_event 10000 evHeartbeat ⟨[]⟩).2 = [] := by
  refine ⟨by decide, by decide, by decide⟩

/-- C6 (amended): deduplication works as claimed for events that produce a
log line: a fresh event whose key is not in the window is classified and
written (with its fs_cli copy), its key is recorded in the window, and a
second event with the same key within the window is dropped with no write
and no state change.  (The original claim's clause that EVERY non-duplicate
event is written fails for heartbeat and unnamed events.) -/
theorem c6_amended (N : Nat) (hN : 1 ≤ N) (ev1 ev2 : Event) (st : CollectorState)
    (i l : String)
    (h1 : eventIdOf ev1 = some i) (hfresh : i ∉ st.recent)
    (h2 : eventIdOf ev2 = some i)
    (hl : logDataOf ev1 = Except.ok (some l)) :
    (process_event N ev1 st).2 = [(extract_domain ev1 l, l), ("fs_cli", l)] ∧
    (process_event N ev1 st).1.recent = dequeAppend N i st.recent ∧
    process_event N ev2 (process_event N ev1 st).1 = ((process_event N ev1 st).1, []) := by
  have hi1 := eventIdOf_ne_empty ev1 i h1
  have hi2 := eventIdOf_ne_empty ev2 i h2
  have hstep : process_event N ev1 st =
      (⟨dequeAppend N i st.recent⟩, [(extract_domain ev1 l, l), ("fs_cli", l)]) := by
    simp only [process_event, h1]
    rw [if_neg (fun hand => hfresh hand.2), if_pos hi1]
    simp only [processRest, hl]
  have hmem : i ∈ dequeAppend N i st.recent := mem_dequeAppend N hN i st.recent
  have hstep2 : process_event N ev2 (⟨dequeAppend N i st.recent⟩ : CollectorState) =
      ((⟨dequeAppend N i st.recent⟩ : CollectorState), []) := by
    simp only [process_event, h2]
    rw [if_pos ⟨hi2, hmem⟩]
  rw [hstep]
  refine ⟨rfl, rfl, ?_⟩
  show process_event N ev2 (⟨dequeAppend N i st.recent⟩ : CollectorState) =
      ((⟨dequeAppend N i st.recent⟩ : CollectorState), [])
  exact hstep2

/-- C6 witness: the amended theorem at a concrete CUSTOM event. -/
theorem c6_witness :
    (process_event 10000 evC6 ⟨[]⟩).2 =
      [(extract_domain evC6 "[CUSTOM] [INFO] Unique-ID=u-6", "[CUSTOM] [INFO] Unique-ID=u-6"),
       ("fs_cli", "[CUSTOM] [INFO] Unique-ID=u-6")] ∧
    (process_event 10000 evC6 ⟨[]⟩).1.recent = dequeAppend 10000 "CUSTOM|u-6" [] ∧
    process_event 10000 evC6 (process_event 10000 evC6 ⟨[]⟩).1 =
      ((process_event 10000 evC6 ⟨[]⟩).1, []) :=
  c6_amended 10000 (by decide) evC6 evC6 ⟨[]⟩ "CUSTOM|u-6"
    "[CUSTOM] [INFO] Unique-ID=u-6" rfl (List.not_mem_nil _) rfl rfl

/-- C7: confirmed.  When the loop is not connected: a failed attempt below
the cap increments the counter and takes the fixed 5s delay; once the
counter has reached the cap the loop takes the 30s cooldown and resets the
counter to zero; a successful connect resets the counter and connects. -/
theorem c7_backoff (s : LoopState) (h : s.connected = false) :
    (s.attempts < max_connection_attempts →
      loopIter false s = (⟨s.attempts + 1, false⟩, LoopAction.delay5)) ∧
    (max_connection_attempts ≤ s.attempts →
      ∀ ok, loopIter ok s = (⟨0, false⟩, LoopAction.cooldown30)) ∧
    (s.attempts < max_connection_attempts →
      loopIter true s = (⟨0, true⟩, LoopAction.poll)) := by
  obtain ⟨a, c⟩ := s
  simp only at h
  subst h
  refine ⟨?_, ?_, ?_⟩
  · intro hlt
    simp [loopIter, connectStep, Nat.not_le.mpr hlt]
  · intro hge ok
    simp [loopIter, hge]
  · intro hlt
    simp [loopIter, connectStep, Nat.not_le.mpr hlt]

/-- C7 witness: the backoff behavior at concrete loop states. -/
theorem c7_witness :
    loopIter false ⟨3, false⟩ = (⟨4, false⟩, LoopAction.delay5) ∧
    loopIter false ⟨5, false⟩ = (⟨0, false⟩, LoopAction.cooldown30) ∧
    loopIter true ⟨2, false⟩ = (⟨0, true⟩, LoopAction.poll) :=
  ⟨(c7_backoff ⟨3, false⟩ rfl).1 (by decide),
   (c7_backoff ⟨5, false⟩ rfl).2.1 (by decide) false,
   (c7_backoff ⟨2, false⟩ rfl).2.2 (by decide)⟩

/-- C10: confirmed.  Every non-duplicate event whose processing yields a log
line produces exactly two write calls: one under the classified partition
key and one under the fixed key fs_cli with the same line. -/
theorem c10_fs_cli_copy (N : Nat) (ev : Event) (st : CollectorState) (l : String)
    (hdup : ∀ i, eventIdOf ev = some i → i ∉ st.recent)
    (hl : logDataOf ev = Except.ok (some l)) :
    (process_event N ev st).2 = [(extract_domain ev l, l), ("fs_cli", l)] := by
  rcases hid : eventIdOf ev with _ | i
  · simp only [process_event, hid, processRest, hl]
  · have hi := eventIdOf_ne_empty ev i hid
    have hni := hdup i hid
    simp only [process_event, hid]
    rw [if_neg (fun hand => hni hand.2), if_pos hi]
    simp only [processRest, hl]

/-- C10 witness: a concrete CHANNEL_CREATE event is written under its
classified key and under fs_cli. -/
theorem c10_witness :
    (process_event 10000 evChan ⟨[]⟩).2 =
      [(extract_domain evChan c10line, c10line), ("fs_cli", c10line)] :=
  c10_fs_cli_copy 10000 evChan ⟨[]⟩ c10line (fun i _ => List.not_mem_nil i) rfl
